import Mathlib

/-!
# Verification of the RingRTC group-call client core (`src/rust/src/core/group_call.rs`)

This development gives a shallow embedding, in Lean, of the parts of the
group-call client that the specification's claims are about:

* ring-id derivation from an era string (`RingId::from_era_id`), together
  with an executable SHA-256 (the `sha2` crate is external; SHA-256 itself
  is the standard FIPS 180-4 function and is implemented here directly);
* the per-frame encryption and decryption framing (`Client::encrypt`,
  `Client::decrypt` and the `Reader`/`Writer` helpers), over a model of the
  frame-crypto library (`crate::core::crypto`, aliased `frame_crypto`),
  which is not part of the sources under verification and is modelled from
  the specification's description of its interface;
* the client actor state machine: connect / join / leave / disconnect /
  end, the ICE connection state handler, the peek-result reconciliation
  (`set_peek_result_inner`), the peek request deduplication
  (`maybe_request_remote_devices`), the outgoing-ring coordinator
  (`ring_inner`, `cancel_full_group_ring_if_needed`) and the speaker
  handler (`handle_speaker_received`).

Machine integers are embedded as `Nat` (with explicit `% 2^w` where the
code relies on wrapping) and byte strings as `List Nat` with bytes `< 256`.
-/

namespace GroupCall

/-! ## Bytes and integer encodings -/

/-- Big-endian bytes of a `u32` (`u32::to_be_bytes`). -/
def be32Bytes (n : Nat) : List Nat :=
  [n / 16777216 % 256, n / 65536 % 256, n / 256 % 256, n % 256]

/-- Big-endian bytes of a `u64` (`u64::to_be_bytes`), used for the SHA-256
length field. -/
def be64Bytes (n : Nat) : List Nat :=
  [n / 72057594037927936 % 256, n / 281474976710656 % 256,
   n / 1099511627776 % 256, n / 4294967296 % 256,
   n / 16777216 % 256, n / 65536 % 256, n / 256 % 256, n % 256]

/-- `u32::from_be_bytes` on four bytes (missing bytes read as 0; callers
always supply exactly four). -/
def u32FromBeBytes (bs : List Nat) : Nat :=
  bs.getD 0 0 * 16777216 + bs.getD 1 0 * 65536 + bs.getD 2 0 * 256 + bs.getD 3 0

/-- `i64::from_le_bytes` composed with the unsigned accumulation: the
little-endian value of the byte list. -/
def leValue : List Nat → Nat
  | [] => 0
  | b :: rest => b + 256 * leValue rest

/-- Reinterpret a `u64` value as an `i64` (Rust `as i64`). -/
def i64OfU64 (n : Nat) : Int :=
  if n < 9223372036854775808 then (n : Int) else (n : Int) - 18446744073709551616

/-- `i64::from_le_bytes`. -/
def i64FromLeBytes (bs : List Nat) : Int :=
  i64OfU64 (leValue bs)

/-! ## UTF-8 encoding of strings

Rust's `str::len` and `str::as_bytes` work on the UTF-8 encoding; we encode
`String` to bytes the same way. -/

/-- UTF-8 encoding of a single scalar value. -/
def charUtf8Bytes (c : Char) : List Nat :=
  let n := c.toNat
  if n < 128 then [n]
  else if n < 2048 then [192 + n / 64, 128 + n % 64]
  else if n < 65536 then [224 + n / 4096, 128 + n / 64 % 64, 128 + n % 64]
  else [240 + n / 262144, 128 + n / 4096 % 64, 128 + n / 64 % 64, 128 + n % 64]

/-- UTF-8 bytes of a string (`str::as_bytes`). -/
def utf8Bytes (s : String) : List Nat :=
  (s.data.map charUtf8Bytes).flatten

/-- Byte length of a string (`str::len`). -/
def utf8Len (s : String) : Nat :=
  (utf8Bytes s).length

/-! ## SHA-256 (FIPS 180-4)

`RingId::from_era_id` hashes non-hex era strings with `Sha256::digest`
from the external `sha2` crate; this is the standard SHA-256 function,
implemented here executably over byte lists. -/

/-- Right rotation of a 32-bit word. -/
def rotr32 (x n : Nat) : Nat :=
  ((x >>> n) ||| (x <<< (32 - n))) % 4294967296

/-- The SHA-256 round constants. -/
def shaK : List Nat :=
  [1116352408, 1899447441, 3049323471, 3921009573,
   961987163, 1508970993, 2453635748, 2870763221,
   3624381080, 310598401, 607225278, 1426881987,
   1925078388, 2162078206, 2614888103, 3248222580,
   3835390401, 4022224774, 264347078, 604807628,
   770255983, 1249150122, 1555081692, 1996064986,
   2554220882, 2821834349, 2952996808, 3210313671,
   3336571891, 3584528711, 113926993, 338241895,
   666307205, 773529912, 1294757372, 1396182291,
   1695183700, 1986661051, 2177026350, 2456956037,
   2730485921, 2820302411, 3259730800, 3345764771,
   3516065817, 3600352804, 4094571909, 275423344,
   430227734, 506948616, 659060556, 883997877,
   958139571, 1322822218, 1537002063, 1747873779,
   1955562222, 2024104815, 2227730452, 2361852424,
   2428436474, 2756734187, 3204031479, 3329325298]

/-- The SHA-256 initial hash value. -/
def shaInitH : List Nat :=
  [1779033703, 3144134277, 1013904242, 2773480762,
   1359893119, 2600822924, 528734635, 1541459225]

/-- SHA-256 padding: append `0x80`, zeros, and the 64-bit big-endian bit
length, reaching a multiple of 64 bytes. -/
def shaPad (msg : List Nat) : List Nat :=
  msg ++ [128] ++ List.replicate ((119 - msg.length % 64) % 64) 0
      ++ be64Bytes (8 * msg.length)

/-- Parse `n` big-endian 32-bit words from the front of a byte list. -/
def bytesToWords (l : List Nat) : Nat → List Nat
  | 0 => []
  | n + 1 => u32FromBeBytes (l.take 4) :: bytesToWords (l.drop 4) n

/-- Extend the 16-word message schedule, appending `k` more words. -/
def shaExtend (w : List Nat) : Nat → List Nat
  | 0 => w
  | k + 1 =>
    let i := w.length
    let w15 := w.getD (i - 15) 0
    let w2 := w.getD (i - 2) 0
    let s0 := rotr32 w15 7 ^^^ rotr32 w15 18 ^^^ (w15 >>> 3)
    let s1 := rotr32 w2 17 ^^^ rotr32 w2 19 ^^^ (w2 >>> 10)
    shaExtend (w ++ [(w.getD (i - 16) 0 + s0 + w.getD (i - 7) 0 + s1) % 4294967296]) k

/-- One SHA-256 compression round. The state is the eight working
variables `a`-`h` as a list. -/
def shaRound (st : List Nat) (ki wi : Nat) : List Nat :=
  match st with
  | [a, b, c, d, e, f, g, hh] =>
    let s1 := rotr32 e 6 ^^^ rotr32 e 11 ^^^ rotr32 e 25
    let ch := (e &&& f) ^^^ ((e ^^^ 4294967295) &&& g)
    let temp1 := (hh + s1 + ch + ki + wi) % 4294967296
    let s0 := rotr32 a 2 ^^^ rotr32 a 13 ^^^ rotr32 a 22
    let maj := (a &&& b) ^^^ (a &&& c) ^^^ (b &&& c)
    let temp2 := (s0 + maj) % 4294967296
    [(temp1 + temp2) % 4294967296, a, b, c, (d + temp1) % 4294967296, e, f, g]
  | other => other

/-- Compress one 64-byte block into the running hash. -/
def shaCompressBlock (hs : List Nat) (block : List Nat) : List Nat :=
  let w := shaExtend (bytesToWords block 16) 48
  let res := (List.range 64).foldl (fun st i => shaRound st (shaK.getD i 0) (w.getD i 0)) hs
  (hs.zip res).map (fun p => (p.1 + p.2) % 4294967296)

/-- Fold `n` 64-byte blocks from the front of the (padded) message. -/
def shaBlocks (hs : List Nat) (msg : List Nat) : Nat → List Nat
  | 0 => hs
  | n + 1 => shaBlocks (shaCompressBlock hs (msg.take 64)) (msg.drop 64) n

/-- SHA-256 digest of a byte list, as 32 bytes. -/
def sha256 (msg : List Nat) : List Nat :=
  let padded := shaPad msg
  ((shaBlocks shaInitH padded (padded.length / 64)).map be32Bytes).flatten

/-! ## `RingId::from_era_id` -/

/-- `char::to_digit(16)`: the value of a hexadecimal digit character. -/
def hexDigitValue (c : Char) : Option Nat :=
  if 48 ≤ c.toNat ∧ c.toNat ≤ 57 then some (c.toNat - 48)
  else if 97 ≤ c.toNat ∧ c.toNat ≤ 102 then some (c.toNat - 87)
  else if 65 ≤ c.toNat ∧ c.toNat ≤ 70 then some (c.toNat - 55)
  else none

/-- Whether a character is a hexadecimal digit (in either case). -/
def isHexDigitChar (c : Char) : Bool :=
  (hexDigitValue c).isSome

/-- The digit-accumulation loop of `u64::from_str_radix(_, 16)`: starting
from `acc`, consume hex digits; fail on a non-digit or when the
accumulated value would overflow a `u64` (the checked multiply and checked
add overflow exactly when `acc * 16 + d ≥ 2^64`). -/
def parseHexAux (acc : Nat) : List Char → Option Nat
  | [] => some acc
  | c :: rest =>
    match hexDigitValue c with
    | some d =>
      if acc * 16 + d < 18446744073709551616 then parseHexAux (acc * 16 + d) rest
      else none
    | none => none

/-- `u64::from_str_radix(s, 16)`: an optional leading `'+'` sign (a `'-'`
is rejected for an unsigned type), then one or more hex digits, with
overflow detection. The empty string and a bare sign are errors. -/
def u64FromStrRadix16 (s : String) : Option Nat :=
  match s.data with
  | [] => none
  | c :: rest =>
    if c = '+' then
      if rest.isEmpty then none else parseHexAux 0 rest
    else if c = '-' then none
    else parseHexAux 0 (c :: rest)

/-- The hash fallback of `RingId::from_era_id`: the first 8 bytes of the
SHA-256 of the era string, interpreted as a little-endian `i64`. -/
def truncatedHashRingId (era_id : String) : Int :=
  i64FromLeBytes ((sha256 (utf8Bytes era_id)).take 8)

/-- `RingId::from_era_id`. Happy path: a 16-byte string that parses as a
hex `u64` (0 is remapped to -1); otherwise the truncated-hash fallback. -/
def RingId.from_era_id (era_id : String) : Int :=
  if utf8Len era_id = 16 then
    match u64FromStrRadix16 era_id with
    | some i => if i = 0 then -1 else i64OfU64 i
    | none => truncatedHashRingId era_id
  else truncatedHashRingId era_id

/-- The plain value of a list of hex digits (no overflow concerns). -/
def hexValueFrom (acc : Nat) : List Char → Nat
  | [] => acc
  | c :: rest => hexValueFrom (acc * 16 + (hexDigitValue c).getD 0) rest

/-- Claim C4's reading of the derivation: *exactly 16 hex digits* take the
numeric branch; **every other** string takes the SHA-256 branch. -/
def ringIdFromEraClaim (era_id : String) : Int :=
  if era_id.data.length = 16 ∧ era_id.data.all isHexDigitChar then
    let i := hexValueFrom 0 era_id.data
    if i = 0 then -1 else i64OfU64 i
  else truncatedHashRingId era_id

/-- The amended reading: the numeric branch is taken for exactly 16 hex
digits **or** a `'+'` sign followed by 15 hex digits (since
`u64::from_str_radix` accepts an optional leading `'+'`); every other
string takes the SHA-256 branch. -/
def ringIdFromEraAmended (era_id : String) : Int :=
  if era_id.data.length = 16 ∧ era_id.data.all isHexDigitChar then
    let i := hexValueFrom 0 era_id.data
    if i = 0 then -1 else i64OfU64 i
  else if era_id.data.head? = some '+' ∧ era_id.data.tail.length = 15 ∧
      era_id.data.tail.all isHexDigitChar then
    let i := hexValueFrom 0 era_id.data.tail
    if i = 0 then -1 else i64OfU64 i
  else truncatedHashRingId era_id

/-! ## The frame-crypto context

Modelled from the spec: the frame-crypto library (`crate::core::crypto`,
imported as `frame_crypto`) is not among the sources under verification;
only its callers in `group_call.rs` are. Spec §4.4 gives its interface:
`encrypt(ciphertextRegion, aad) → (counter, frameCounter)` encrypts the
region in place under the current send ratchet and produces a 16-byte MAC;
`decrypt(demuxId, counter, frameCounter, ciphertextRegion, aad, mac)`
routes to the per-demux-id receive ratchet installed with
`add_receive_secret(demuxId, counter, secret)`, verifies the MAC, and
fails (the frame is dropped) if no key is installed or the MAC does not
verify. The cipher itself (AES-GCM-like) is abstracted by an executable
keystream addition modulo 256 and a deterministic MAC function keyed by
the same `(secret, ratchetCounter, frameCounter)` coordinates. -/

/-- The send half of the frame-crypto context: the current ratchet
counter (a `u8`), the epoch secret, and the per-frame counter (a `u64`,
incremented on every `encrypt`). -/
structure CryptoSendState where
  ratchet_counter : Nat
  secret : Nat
  frame_counter : Nat
  deriving DecidableEq

/-- The frame-crypto context: the send ratchet plus the receive secrets
installed per `(demux_id, ratchet_counter)`. -/
structure CryptoContext where
  send : CryptoSendState
  receive : List (Nat × Nat × Nat)
  deriving DecidableEq

/-- One byte of the model keystream for epoch `(secret, rc)` and frame
`fc`, at offset `i`. -/
def keystreamByte (secret rc fc i : Nat) : Nat :=
  (secret + 131 * rc + 257 * fc + 313 * i) % 256

/-- Encrypt a byte region in place (keystream addition), starting at
offset `i`. -/
def applyKeystreamFrom (secret rc fc i : Nat) : List Nat → List Nat
  | [] => []
  | b :: rest =>
    (b + keystreamByte secret rc fc i) % 256 ::
      applyKeystreamFrom secret rc fc (i + 1) rest

/-- Decrypt a byte region in place (keystream subtraction), starting at
offset `i`. -/
def removeKeystreamFrom (secret rc fc i : Nat) : List Nat → List Nat
  | [] => []
  | b :: rest =>
    (b + 256 - keystreamByte secret rc fc i % 256) % 256 ::
      removeKeystreamFrom secret rc fc (i + 1) rest

/-- The model MAC: a 16-byte tag determined by the key coordinates, the
ciphertext region, and the additional authenticated data. -/
def macBytes (secret rc fc : Nat) (ct aad : List Nat) : List Nat :=
  (List.range 16).map (fun i =>
    (ct.foldl (fun a b => a * 256 + b + 1) 0 +
     1000003 * aad.foldl (fun a b => a * 256 + b + 1) 0 +
     7 * secret + 11 * rc + 13 * fc + i) % 256)

/-- `frame_crypto::Context::encrypt`: encrypt the region under the send
state, returning the transformed region, the ratchet counter, the frame
counter used for this frame, and the MAC; the frame counter advances. -/
def CryptoContext.encryptFrame (ctx : CryptoContext) (region aad : List Nat) :
    CryptoContext × List Nat × Nat × Nat × List Nat :=
  let st := ctx.send
  let ct := applyKeystreamFrom st.secret st.ratchet_counter st.frame_counter 0 region
  let mac := macBytes st.secret st.ratchet_counter st.frame_counter ct aad
  ({ ctx with send := { st with frame_counter := st.frame_counter + 1 } },
   ct, st.ratchet_counter, st.frame_counter, mac)

/-- Look up the receive secret installed for `(demux_id, rc)`. -/
def lookupReceiveSecret (receive : List (Nat × Nat × Nat)) (demux_id rc : Nat) :
    Option Nat :=
  (receive.find? (fun e => e.1 == demux_id && e.2.1 == rc)).map (fun e => e.2.2)

/-- `frame_crypto::Context::decrypt`: route to the receive ratchet for the
demux id, verify the MAC, and decrypt the region; an uninstalled key or a
bad MAC is an error. -/
def CryptoContext.decryptFrame (ctx : CryptoContext) (demux_id rc fc : Nat)
    (region aad mac : List Nat) : Option (List Nat) :=
  match lookupReceiveSecret ctx.receive demux_id rc with
  | none => none
  | some secret =>
    if macBytes secret rc fc region aad = mac then
      some (removeKeystreamFrom secret rc fc 0 region)
    else none

/-! ## Per-frame encryption and decryption (`Client::encrypt` / `Client::decrypt`)

Translated from `group_call.rs`. The `Writer`/`Reader` are inlined as
list operations: the callers allocate the ciphertext buffer with
`get_ciphertext_buffer_size` (resp. the plaintext buffer with
`get_plaintext_buffer_size`), so the writes always fit exactly; the reads
carry their explicit length checks (`read_slice`,
`read_slice_from_end`, `read_u32_from_end`, `read_u8_from_end` each fail
on a too-short buffer). -/

/-- `FRAME_ENCRYPTION_FOOTER_LEN`: ratchet counter (1) + frame counter
(4) + MAC (16). -/
def FRAME_ENCRYPTION_FOOTER_LEN : Nat := 1 + 4 + 16

/-- `Client::unencrypted_media_header_len`: 1 byte in the clear for audio
(Opus TOC), 10 for video (VP8 headers). -/
def unencrypted_media_header_len (is_audio : Bool) : Nat :=
  if is_audio then 1 else 10

/-- `Client::get_ciphertext_buffer_size` (`saturating_add`; `Nat`
addition cannot overflow). -/
def get_ciphertext_buffer_size (plaintext_size : Nat) : Nat :=
  plaintext_size + FRAME_ENCRYPTION_FOOTER_LEN

/-- `Client::get_plaintext_buffer_size` (`saturating_sub` is `Nat`
subtraction). -/
def get_plaintext_buffer_size (ciphertext_size : Nat) : Nat :=
  ciphertext_size - FRAME_ENCRYPTION_FOOTER_LEN

/-- `Client::encrypt`: copy the unencrypted header, encrypt the rest in
place, then append the ratchet counter, the big-endian frame counter and
the MAC. Fails if the plaintext is shorter than the unencrypted header
(`read_slice`) or if the frame counter exceeds `u32::MAX`
(`RingRtcError::FrameCounterTooBig`). Returns the new context and the
ciphertext buffer contents. -/
def Client.encrypt (ctx : CryptoContext) (unencrypted_header_len : Nat)
    (plaintext : List Nat) : Option (CryptoContext × List Nat) :=
  if unencrypted_header_len ≤ plaintext.length then
    let unencrypted_header := plaintext.take unencrypted_header_len
    let rest := plaintext.drop unencrypted_header_len
    let (ctx', ct, ratchet_counter, frame_counter, mac) :=
      ctx.encryptFrame rest unencrypted_header
    if frame_counter > 4294967295 then none
    else some (ctx',
      unencrypted_header ++ ct ++ [ratchet_counter % 256] ++
        be32Bytes frame_counter ++ mac)
  else none

/-- `Client::encrypt_media` (the WebRTC per-frame hook). -/
def Client.encrypt_media (ctx : CryptoContext) (is_audio : Bool)
    (plaintext : List Nat) : Option (CryptoContext × List Nat) :=
  Client.encrypt ctx (unencrypted_media_header_len is_audio) plaintext

/-- `Client::decrypt`: read the unencrypted header from the front, then
the MAC (16 bytes), frame counter (4 bytes big-endian) and ratchet
counter (1 byte) from the end; the middle is the encrypted payload, which
is routed to the per-demux-id receive ratchet. Returns the plaintext
(header ∥ decrypted payload). Each read fails on a too-short buffer. -/
def Client.decrypt (ctx : CryptoContext) (remote_demux_id : Nat)
    (unencrypted_header_len : Nat) (ciphertext : List Nat) :
    Option (List Nat) :=
  if unencrypted_header_len ≤ ciphertext.length then
    let unencrypted_header := ciphertext.take unencrypted_header_len
    let rest := ciphertext.drop unencrypted_header_len
    if 16 ≤ rest.length then
      let mac := rest.drop (rest.length - 16)
      let rest2 := rest.take (rest.length - 16)
      if 4 ≤ rest2.length then
        let fc_bytes := rest2.drop (rest2.length - 4)
        let rest3 := rest2.take (rest2.length - 4)
        if 1 ≤ rest3.length then
          let ratchet_counter := (rest3.drop (rest3.length - 1)).getD 0 0
          let encrypted_payload := rest3.take (rest3.length - 1)
          match ctx.decryptFrame remote_demux_id ratchet_counter
              (u32FromBeBytes fc_bytes) encrypted_payload unencrypted_header mac with
          | some payload => some (unencrypted_header ++ payload)
          | none => none
        else none
      else none
    else none
  else none

/-- `Client::decrypt_media` (the WebRTC per-frame hook; the plaintext
buffer it allocates with `get_plaintext_buffer_size` is exactly filled by
the header and payload writes). -/
def Client.decrypt_media (ctx : CryptoContext) (remote_demux_id : Nat)
    (is_audio : Bool) (ciphertext : List Nat) : Option (List Nat) :=
  Client.decrypt ctx remote_demux_id (unencrypted_media_header_len is_audio)
    ciphertext

/-! ## The client actor state machine

Translated from `group_call.rs`: the enums (`ConnectionState`, `JoinState`,
`DheState`, `EndReason`, `GroupCallKind`, `RemoteDevicesRequestState`,
`OutgoingRingState`), the actor `State` (trimmed to the fields the claims
under verification touch), and the actor jobs `connect`, `join`,
`leave_inner`, `disconnect`, `end`, `ring_inner`,
`cancel_full_group_ring_if_needed`, `maybe_request_remote_devices`,
`set_peek_result_inner`, `handle_speaker_received`,
`handle_removed_received` and
`PeerConnectionObserverImpl::handle_ice_connection_state_changed`.

Times (`Instant`, `SystemTime`) are embedded as `Nat` seconds; each job
that reads a clock takes the reading as a parameter. Observer callbacks,
signaling messages and SFU requests are recorded as a list of `Event`s in
job order. External collaborators with no modelled state (the peer
connection, timers, the HTTP SFU client, key management inside the
frame-crypto context) appear only through those events; the success of
`set_peer_connection_descriptions` is an oracle parameter. -/

/-- An opaque user id (a byte string). -/
abbrev UserId := List Nat

/-- `ConnectionState`. -/
inductive ConnectionState
  | NotConnected
  | Connecting
  | Connected
  | Reconnecting
  deriving DecidableEq

/-- `JoinState` (ring ids are `i64`, demux ids `u32`). -/
inductive JoinState
  | NotJoined (ring_id : Option Int)
  | Joining
  | Joined (local_demux_id : Nat)
  deriving DecidableEq

/-- `DheState` (payloads — the ephemeral secret and the derived SRTP keys
— are not needed by the claims and are omitted). -/
inductive DheState
  | NotYetStarted
  | WaitingForServerPublicKey
  | Negotiated
  deriving DecidableEq

/-- `EndReason`. -/
inductive EndReason
  | DeviceExplicitlyDisconnected
  | ServerExplicitlyDisconnected
  | DeniedRequestToJoinCall
  | RemovedFromCall
  | CallManagerIsBusy
  | SfuClientFailedToJoin
  | FailedToCreatePeerConnectionFactory
  | FailedToNegotiatedSrtpKeys
  | FailedToCreatePeerConnection
  | FailedToStartPeerConnection
  | FailedToUpdatePeerConnection
  | FailedToSetMaxSendBitrate
  | IceFailedWhileConnecting
  | IceFailedAfterConnected
  | ServerChangedDemuxId
  | HasMaxDevices
  deriving DecidableEq

/-- `GroupCallKind`. -/
inductive GroupCallKind
  | SignalGroup
  | CallLink
  deriving DecidableEq

/-- `RemoteDevicesRequestState`; the `Nat` is the `Instant` of the request,
update or failure. -/
inductive RemoteDevicesRequestState
  | WaitingForMembershipProof
  | NeverRequested
  | Requested (should_request_again : Bool) (request_time : Nat)
  | Updated (update_time : Nat)
  | Failed (failure_time : Nat)
  deriving DecidableEq

/-- `OutgoingRingState`. -/
inductive OutgoingRingState
  | Unknown
  | PermittedToRing (ring_id : Int)
  | WantsToRing (recipient : Option UserId)
  | HasSentRing (ring_id : Int)
  | NotPermittedToRing
  deriving DecidableEq

/-- `webrtc::IceConnectionState` (the values the handler matches on). -/
inductive IceConnectionState
  | New
  | Checking
  | Connected
  | Completed
  | Failed
  | Disconnected
  | Closed
  deriving DecidableEq

/-- `RemoteDevicesChangedReason`. -/
inductive RemoteDevicesChangedReason
  | DemuxIdsChanged
  | MediaKeyReceived (demux_id : Nat)
  | SpeakerTimeChanged (demux_id : Nat)
  | HeartbeatStateChanged (demux_id : Nat)
  | ForwardedVideosChanged
  | HigherResolutionPendingChanged
  deriving DecidableEq

/-- `protobuf::signaling::call_message::ring_intention::Type`. -/
inductive RingIntentionType
  | Ring
  | Cancelled
  deriving DecidableEq

/-- The externally observable actions of a job, in order: observer
callbacks, group/self signaling messages, and SFU requests. -/
inductive Event
  | connectionStateChanged (cs : ConnectionState)
  | joinStateChanged (js : JoinState)
  | handlePeekChanged (joined_user_ids : Finset UserId)
  | remoteDevicesChanged (reason : RemoteDevicesChangedReason)
  | handleEnded (reason : EndReason)
  | ringIntentionSent (ty : RingIntentionType) (ring_id : Int)
  | ringAcceptSent (ring_id : Int)
  | leavingSent
  | leaveToSfuSent
  | sfuPeekRequested
  | sfuJoinRequested
  | panicked
  deriving DecidableEq

/-- `sfu::PeekDeviceInfo`. Modelled from the spec: `lite::sfu` is not
among the sources under verification; §4.3 gives `devices[] (demuxId,
userId?)`. -/
structure PeekDeviceInfo where
  demux_id : Nat
  user_id : Option UserId
  deriving DecidableEq

/-- `sfu::PeekInfo`. Modelled from the spec (§4.3): `devices[]`,
`pendingDevices[]`, `creator?`, `eraId?`, `maxDevices?`. -/
structure PeekInfo where
  devices : List PeekDeviceInfo
  pending_devices : List PeekDeviceInfo
  creator : Option UserId
  era_id : Option String
  max_devices : Option Nat
  deriving DecidableEq

/-- `PeekInfo::device_count`. Modelled from the spec: the number of
devices reported by the peek (§4.1 "last peek info shows deviceCount";
§8 scenario 4 counts one reported device as `deviceCount = 1`). -/
def PeekInfo.device_count (p : PeekInfo) : Nat :=
  p.devices.length

/-- `PeekInfo::unique_pending_users`. Modelled from the spec (§4.3: "for
each unique pending user id"). -/
def PeekInfo.unique_pending_users (p : PeekInfo) : Finset UserId :=
  (p.pending_devices.filterMap (fun d => d.user_id)).toFinset

/-- Model of `std::collections::hash_map::DefaultHasher` on a user id.
Modelled from the spec: only determinism and order-independent folding
matter (§4.3); the concrete 64-bit mixing is not specified. -/
def userIdHash (u : UserId) : Nat :=
  u.foldl (fun a b => (a * 31 + b + 1) % 18446744073709551616) 5381

/-- The pending-users signature (§4.3): an order-independent wrapping-add
fold of the per-user hashes, seeded with `pending_devices.len()`. -/
def pendingUsersSignature (p : PeekInfo) : Nat :=
  (p.unique_pending_users.sum userIdHash + p.pending_devices.length) %
    18446744073709551616

/-- `RemoteDeviceState`, trimmed to the fields the claims touch
(`media_keys_received`, the heartbeat fields and the forwarding/resolution
fields are omitted). `added_time` and `speaker_time` are `SystemTime`
seconds. -/
structure RemoteDeviceState where
  demux_id : Nat
  user_id : UserId
  added_time : Nat
  speaker_time : Option Nat
  deriving DecidableEq

/-- `RemoteDeviceState::new`. -/
def RemoteDeviceState.new (demux_id : Nat) (user_id : UserId) (added_time : Nat) :
    RemoteDeviceState :=
  { demux_id := demux_id, user_id := user_id, added_time := added_time,
    speaker_time := none }

/-- `RemoteDevices::demux_id_set`. -/
def demuxIdSet (devs : List RemoteDeviceState) : Finset Nat :=
  (devs.map (fun d => d.demux_id)).toFinset

/-- `RemoteDevices::find_by_demux_id` (first match). -/
def findByDemuxId (devs : List RemoteDeviceState) (demux_id : Nat) :
    Option RemoteDeviceState :=
  devs.find? (fun d => d.demux_id == demux_id)

/-- Ordering on `Option SystemTime` (`None` < `Some`), as Rust derives
it. -/
def optTimeLe : Option Nat → Option Nat → Bool
  | none, _ => true
  | some _, none => false
  | some a, some b => a ≤ b

/-- The fold of `Iterator::max_by_key`: a later element replaces the
running maximum when its key is greater **or equal** (so the last maximal
element wins). -/
def maxBySpeakerTimeAux (best : RemoteDeviceState) :
    List RemoteDeviceState → RemoteDeviceState
  | [] => best
  | d :: rest =>
    maxBySpeakerTimeAux
      (if optTimeLe best.speaker_time d.speaker_time then d else best) rest

/-- `Iterator::max_by_key` on `speaker_time`: the last maximal element,
`none` on an empty list. -/
def maxBySpeakerTime : List RemoteDeviceState → Option RemoteDeviceState
  | [] => none
  | d :: rest => some (maxBySpeakerTimeAux d rest)

/-- `RemoteDevices::latest_speaker_demux_id`. -/
def latestSpeakerDemuxId (devs : List RemoteDeviceState) : Option Nat :=
  match maxBySpeakerTime devs with
  | none => none
  | some m => if m.speaker_time = none then none else some m.demux_id

/-- `find_by_demux_id_mut` followed by `speaker_time = Some(now)`: update
the first matching device. -/
def setSpeakerTimeFirst (devs : List RemoteDeviceState) (demux_id now : Nat) :
    List RemoteDeviceState :=
  match devs with
  | [] => []
  | d :: rest =>
    if d.demux_id = demux_id then { d with speaker_time := some now } :: rest
    else d :: setSpeakerTimeFirst rest demux_id now

/-- The actor `State`, trimmed to the fields the claims touch. `busy` is
the process-wide busy flag (shared with the `CallManager`); `stopped`
models the actor's `Stopper` (modelled from the spec, §5: after
`handle_ended` the client "refuses further operations"; `common::actor`
is not among the sources under verification). `sfu_info_present` stands
for `sfu_info.is_some()`. -/
structure ClientState where
  connection_state : ConnectionState
  join_state : JoinState
  dhe_state : DheState
  busy : Bool
  stopped : Bool
  joined_members : Finset UserId
  pending_users_signature : Nat
  last_peek_info : Option PeekInfo
  remote_devices : List RemoteDeviceState
  remote_devices_request_state : RemoteDevicesRequestState
  outgoing_ring_state : OutgoingRingState
  has_ever_been_participating_client : Bool
  speaker_rtp_timestamp : Option Nat
  sfu_info_present : Bool
  kind : GroupCallKind
  deriving DecidableEq

/-- The initial `State` built by `Client::start`. -/
def initialState (kind : GroupCallKind) (ring_id : Option Int) : ClientState :=
  { connection_state := .NotConnected
    join_state := .NotJoined ring_id
    dhe_state := .NotYetStarted
    busy := false
    stopped := false
    joined_members := ∅
    pending_users_signature := 0
    last_peek_info := none
    remote_devices := []
    remote_devices_request_state :=
      match kind with
      | .SignalGroup => .WaitingForMembershipProof
      | .CallLink => .NeverRequested
    outgoing_ring_state := .Unknown
    has_ever_been_participating_client := false
    speaker_rtp_timestamp := none
    sfu_info_present := false
    kind := kind }

/-- `Client::set_connection_state_and_notify_observer`. -/
def Client.set_connection_state_and_notify_observer (s : ClientState)
    (cs : ConnectionState) : ClientState × List Event :=
  ({ s with connection_state := cs }, [.connectionStateChanged cs])

/-- `Client::set_join_state_and_notify_observer`. -/
def Client.set_join_state_and_notify_observer (s : ClientState)
    (js : JoinState) : ClientState × List Event :=
  ({ s with join_state := js }, [.joinStateChanged js])

/-- `Client::take_busy` (a poisoned lock, which also returns `false`, is
not modelled). -/
def Client.take_busy (s : ClientState) : ClientState × Bool :=
  if s.busy then (s, false) else ({ s with busy := true }, true)

/-- `Client::release_busy`. -/
def Client.release_busy (s : ClientState) : ClientState :=
  { s with busy := false }

/-- `Client::cancel_full_group_ring_if_needed`: while `HasSentRing`, send
a group-wide cancellation; the ring state itself is not changed. -/
def Client.cancel_full_group_ring_if_needed (s : ClientState) :
    ClientState × List Event :=
  match s.outgoing_ring_state with
  | .HasSentRing ring_id => (s, [.ringIntentionSent .Cancelled ring_id])
  | _ => (s, [])

/-- `Client::leave_inner`. Disabling outgoing/incoming media and the
timer clears touch no modelled state; the `Leaving` broadcasts
(`send_leaving_through_sfu_and_over_signaling`, `send_leave_to_sfu`) are
recorded as events. -/
def Client.leave_inner (s : ClientState) : ClientState × List Event :=
  let r1 := Client.cancel_full_group_ring_if_needed s
  let s := r1.1
  let e1 := r1.2
  match s.join_state with
  | .NotJoined _ => (s, e1)
  | .Joining | .Joined _ =>
    let s := Client.release_busy s
    let e2 :=
      match s.join_state with
      | .Joined _ => [Event.leavingSent, Event.leaveToSfuSent]
      | _ => []
    let r3 := Client.set_join_state_and_notify_observer s (.NotJoined none)
    ({ r3.1 with has_ever_been_participating_client := false }, e1 ++ e2 ++ r3.2)

/-- `Client::end` (named `endWith` because `end` is a Lean keyword):
leave if joining or joined; then, unless already `NotConnected`, close
the peer connection, notify `NotConnected`, stop the actor, and emit
`handle_ended` with the reason. -/
def Client.endWith (s : ClientState) (reason : EndReason) :
    ClientState × List Event :=
  let joining_or_joined :=
    match s.join_state with
    | .Joined _ | .Joining => true
    | .NotJoined _ => false
  let r1 := if joining_or_joined then Client.leave_inner s else (s, [])
  let s := r1.1
  let e1 := r1.2
  match s.connection_state with
  | .NotConnected => (s, e1)
  | .Connecting | .Connected | .Reconnecting =>
    let r2 := Client.set_connection_state_and_notify_observer s .NotConnected
    ({ r2.1 with stopped := true }, e1 ++ r2.2 ++ [.handleEnded reason])

/-- `Client::connect`. The timer starts, the membership-proof and
group-members requests (SignalGroup only) and the initial `tick` touch no
modelled state. -/
def Client.connect (s : ClientState) : ClientState × List Event :=
  match s.connection_state with
  | .NotConnected =>
    Client.set_connection_state_and_notify_observer s .Connecting
  | _ => (s, [])

/-- `Client::maybe_request_remote_devices`: issue a new SFU peek iff the
request state allows it; an as-soon-as-possible caller that finds a
request pending marks `should_request_again` instead. Returns the events
(`sfuPeekRequested` records the `sfu_client.peek` call). Durations are in
seconds. -/
def Client.maybe_request_remote_devices (s : ClientState) (now max_age : Nat)
    (rerequest_if_pending : Bool) : ClientState × List Event :=
  let should_request_now :=
    match s.remote_devices_request_state with
    | .WaitingForMembershipProof => false
    | .NeverRequested => true
    | .Requested _ request_time => now > request_time + 5
    | .Updated update_time => now ≥ update_time + max_age
    | .Failed failure_time => now > failure_time + 5
  if should_request_now then
    ({ s with remote_devices_request_state := .Requested false now },
     [.sfuPeekRequested])
  else if rerequest_if_pending then
    match s.remote_devices_request_state with
    | .Requested _ request_time =>
      ({ s with remote_devices_request_state := .Requested true request_time }, [])
    | _ => (s, [])
  else (s, [])

/-- `Client::request_remote_devices_as_soon_as_possible`. -/
def Client.request_remote_devices_as_soon_as_possible (s : ClientState)
    (now : Nat) : ClientState × List Event :=
  Client.maybe_request_remote_devices s now 0 true

/-- The body of `Client::join` past the max-devices check: take the busy
flag (ending with `CallManagerIsBusy` if held), notify `Joining`, send
the ring-accept message to our own devices if a ring id was saved,
request a fresh membership proof (SignalGroup; no modelled state), start
the DHE and call `sfu_client.join`. -/
def Client.join_proceed (s : ClientState) (ring_id : Option Int) :
    ClientState × List Event :=
  let rb := Client.take_busy s
  let s := rb.1
  if rb.2 then
    let r1 := Client.set_join_state_and_notify_observer s .Joining
    let e2 :=
      match ring_id with
      | some rid => [Event.ringAcceptSent rid]
      | none => []
    let s := { r1.1 with dhe_state := .WaitingForServerPublicKey }
    (s, r1.2 ++ e2 ++ [.sfuJoinRequested])
  else Client.endWith s .CallManagerIsBusy

/-- `Client::join`: reject while joining or joined; end with
`HasMaxDevices` when the last peek shows
`device_count ≥ max_devices.unwrap_or(u32::MAX)`; otherwise proceed. -/
def Client.join (s : ClientState) : ClientState × List Event :=
  match s.join_state with
  | .Joined _ => (s, [])
  | .Joining => (s, [])
  | .NotJoined ring_id =>
    match s.last_peek_info with
    | some peek_info =>
      if peek_info.device_count ≥ peek_info.max_devices.getD 4294967295 then
        Client.endWith s .HasMaxDevices
      else Client.join_proceed s ring_id
    | none => Client.join_proceed s ring_id

/-- `Client::ring_inner`. A specific recipient hits `unimplemented!`
(recorded as `panicked`; no state change). -/
def Client.ring_inner (s : ClientState) (recipient : Option UserId) :
    ClientState × List Event :=
  match s.outgoing_ring_state with
  | .PermittedToRing ring_id =>
    match recipient with
    | some _ => (s, [.panicked])
    | none =>
      if s.remote_devices.isEmpty then
        ({ s with outgoing_ring_state := .HasSentRing ring_id },
         [.ringIntentionSent .Ring ring_id])
      else
        ({ s with outgoing_ring_state := .NotPermittedToRing },
         [.ringIntentionSent .Ring ring_id])
  | .WantsToRing _ => (s, [])
  | .HasSentRing _ => (s, [])
  | .Unknown => ({ s with outgoing_ring_state := .WantsToRing recipient }, [])
  | .NotPermittedToRing => (s, [])

/-- `PeerConnectionObserverImpl::handle_ice_connection_state_changed`
(the job body; arms in source order). -/
def Client.handle_ice_connection_state_changed (s : ClientState)
    (ice : IceConnectionState) : ClientState × List Event :=
  match s.connection_state, ice with
  | .Connecting, .Disconnected | .Connecting, .Closed | .Connecting, .Failed =>
    Client.endWith s .IceFailedWhileConnecting
  | .Connecting, .Checking => (s, [])
  | .Connecting, .Connected | .Connecting, .Completed =>
    Client.set_connection_state_and_notify_observer s .Connected
  | .Connected, .Checking | .Connected, .Disconnected =>
    Client.set_connection_state_and_notify_observer s .Reconnecting
  | .Reconnecting, .Connected | .Reconnecting, .Completed =>
    Client.set_connection_state_and_notify_observer s .Connected
  | _, .Failed | _, .Closed =>
    Client.endWith s .IceFailedAfterConnected
  | _, _ => (s, [])

/-- `Client::handle_speaker_received` (the job body): drop a timestamp at
or below the watermark; otherwise advance the watermark, then update the
named device's `speaker_time` (to `now`) and fire
`SpeakerTimeChanged` unless the device is unknown or already the latest
speaker. -/
def Client.handle_speaker_received (s : ClientState)
    (timestamp demux_id now : Nat) : ClientState × List Event :=
  let stale : Bool :=
    match s.speaker_rtp_timestamp with
    | some watermark => timestamp ≤ watermark
    | none => false
  if stale then (s, [])
  else
    let s := { s with speaker_rtp_timestamp := some timestamp }
    let latest := latestSpeakerDemuxId s.remote_devices
    match findByDemuxId s.remote_devices demux_id with
    | some speaker_device =>
      if latest = some speaker_device.demux_id then (s, [])
      else
        ({ s with remote_devices := setSpeakerTimeFirst s.remote_devices demux_id now },
         [.remoteDevicesChanged (.SpeakerTimeChanged speaker_device.demux_id)])
    | none => (s, [])

/-- `Client::handle_removed_received` (the job body). -/
def Client.handle_removed_received (s : ClientState) : ClientState × List Event :=
  if s.has_ever_been_participating_client then
    Client.endWith s .RemovedFromCall
  else
    Client.endWith s .DeniedRequestToJoinCall

/-- `HashMap<DemuxId, RemoteDeviceState>` built by
`collect()` from the old device list (duplicate keys: last wins). The
map is an association list with unique keys. -/
def buildDemuxMap (devs : List RemoteDeviceState) :
    List (Nat × RemoteDeviceState) :=
  devs.foldl (fun m d =>
    (d.demux_id, d) :: m.filter (fun p => p.1 ≠ d.demux_id)) []

/-- The `filter_map` of `set_peek_result_inner` that rebuilds
`remote_devices` from the peek's devices: skip the local demux id
(marking "has ever been participating"), skip devices with no user id,
keep the old entry when its user id still matches (removing it from the
map either way), otherwise create a fresh entry with `added_time = now`.
Returns the new device list and the updated participating flag. -/
def rebuildRemoteDevices (local_demux_id added_time : Nat) :
    List PeekDeviceInfo → List (Nat × RemoteDeviceState) → Bool →
    List RemoteDeviceState × Bool
  | [], _, has_ever => ([], has_ever)
  | d :: rest, m, has_ever =>
    if d.demux_id = local_demux_id then
      rebuildRemoteDevices local_demux_id added_time rest m true
    else
      match d.user_id with
      | none => rebuildRemoteDevices local_demux_id added_time rest m has_ever
      | some uid =>
        let removed := (m.find? (fun p => p.1 == d.demux_id)).map (fun p => p.2)
        let m := m.filter (fun p => p.1 ≠ d.demux_id)
        let dev :=
          match removed with
          | some existing =>
            if existing.user_id = uid then existing
            else RemoteDeviceState.new d.demux_id uid added_time
          | none => RemoteDeviceState.new d.demux_id uid added_time
        let rec_result :=
          rebuildRemoteDevices local_demux_id added_time rest m has_ever
        (dev :: rec_result.1, rec_result.2)

/-- The set of joined user ids a peek reports: the user ids among
`devices`, dropping devices with no user id (`filter_map` over
`device.user_id`). -/
def peekUserIdSet (p : PeekInfo) : Finset UserId :=
  (p.devices.filterMap (fun d => d.user_id)).toFinset

/-- The tail of `set_peek_result_inner`: store the peek, the joined
members and the pending-users signature, and re-request if something
asked for a peek while this one was pending. -/
def Client.set_peek_result_tail (s : ClientState) (peek_info : PeekInfo)
    (new_user_ids : Finset UserId) (new_pending_users_signature : Nat)
    (should_request_again : Bool) (now : Nat) (acc : List Event) :
    ClientState × List Event :=
  let s := { s with
    last_peek_info := some peek_info,
    joined_members := new_user_ids,
    pending_users_signature := new_pending_users_signature }
  if should_request_again then
    let r := Client.request_remote_devices_as_soon_as_possible s now
    (r.1, acc ++ r.2)
  else (s, acc)

/-- `Client::set_peek_result_inner`. A failed peek records `Failed`. A
successful peek updates the request state, computes the new joined user
ids and the pending-users signature, fires `handle_peek_changed` on the
first peek or on a change of user ids, era id or pending signature; then,
only when joined with a negotiated DHE, rebuilds `remote_devices`
(dropping the local demux id and user-less devices), pushes the new demux
ids into the peer connection when they changed (ending with
`FailedToUpdatePeerConnection` when that fails — the oracle
`pc_update_ok` stands for `set_peer_connection_descriptions`), fires
`DemuxIdsChanged`, and leaves `HasSentRing` for `NotPermittedToRing`
when the call is no longer empty. Media-key advancement/rotation, the
pending-receive-key drain and the send-rate recompute touch no modelled
state. -/
def Client.set_peek_result_inner (s : ClientState) (result : Option PeekInfo)
    (pc_update_ok : Bool) (now : Nat) : ClientState × List Event :=
  match result with
  | none =>
    ({ s with remote_devices_request_state := .Failed now }, [])
  | some peek_info =>
    let is_first_peek_info := s.last_peek_info.isNone
    let should_request_again :=
      match s.remote_devices_request_state with
      | .Requested true _ => true
      | _ => false
    let s := { s with remote_devices_request_state := .Updated now }
    let old_user_ids := s.joined_members
    let s := { s with joined_members := ∅ }
    let new_user_ids := peekUserIdSet peek_info
    let new_pending_users_signature := pendingUsersSignature peek_info
    let old_era_id :=
      match s.last_peek_info with
      | some old => old.era_id
      | none => none
    let peek_changed_events :=
      if is_first_peek_info ∨ old_user_ids ≠ new_user_ids ∨
          old_era_id ≠ peek_info.era_id ∨
          s.pending_users_signature ≠ new_pending_users_signature then
        [Event.handlePeekChanged new_user_ids]
      else []
    match s.join_state, s.dhe_state with
    | .Joined local_demux_id, .Negotiated =>
      let old_demux_ids := demuxIdSet s.remote_devices
      let rebuilt := rebuildRemoteDevices local_demux_id now
        peek_info.devices (buildDemuxMap s.remote_devices)
        s.has_ever_been_participating_client
      let s := { s with
        remote_devices := rebuilt.1,
        has_ever_been_participating_client := rebuilt.2 }
      let new_demux_ids := demuxIdSet s.remote_devices
      let demux_ids_changed := old_demux_ids ≠ new_demux_ids
      if demux_ids_changed ∧ s.sfu_info_present ∧ pc_update_ok = false then
        let r2 := Client.endWith s .FailedToUpdatePeerConnection
        (r2.1, peek_changed_events ++ r2.2)
      else
        let e3 :=
          if demux_ids_changed then [Event.remoteDevicesChanged .DemuxIdsChanged]
          else []
        let has_sent_ring : Bool :=
          match s.outgoing_ring_state with
          | .HasSentRing _ => true
          | _ => false
        let s :=
          if ¬ new_demux_ids = ∅ ∧ has_sent_ring = true then
            { s with outgoing_ring_state := .NotPermittedToRing }
          else s
        Client.set_peek_result_tail s peek_info new_user_ids
          new_pending_users_signature should_request_again now
          (peek_changed_events ++ e3)
    | _, _ =>
      Client.set_peek_result_tail s peek_info new_user_ids
        new_pending_users_signature should_request_again now peek_changed_events

/-- The public operations and externally triggered jobs that drive one
`Client`. `internalEnd` stands for the remaining `Client::end` call sites
(`on_sfu_client_joined` failures, `ServerChangedDemuxId`, the factory
failures); no call site outside
`handle_ice_connection_state_changed` uses the two ICE end reasons. -/
inductive Op
  | connect
  | join
  | leave
  | disconnect
  | ring (recipient : Option UserId)
  | setPeekResult (result : Option PeekInfo) (pc_update_ok : Bool) (now : Nat)
  | iceStateChanged (ice : IceConnectionState)
  | speakerReceived (timestamp demux_id now : Nat)
  | removedReceived
  | internalEnd (reason : EndReason)

/-- One actor job. -/
def Client.step (s : ClientState) : Op → ClientState × List Event
  | .connect => Client.connect s
  | .join => Client.join s
  | .leave => Client.leave_inner s
  | .disconnect => Client.endWith s .DeviceExplicitlyDisconnected
  | .ring recipient => Client.ring_inner s recipient
  | .setPeekResult result pc_update_ok now =>
    Client.set_peek_result_inner s result pc_update_ok now
  | .iceStateChanged ice => Client.handle_ice_connection_state_changed s ice
  | .speakerReceived timestamp demux_id now =>
    Client.handle_speaker_received s timestamp demux_id now
  | .removedReceived => Client.handle_removed_received s
  | .internalEnd reason => Client.endWith s reason

/-- A run of the actor: jobs in order, with the stopped actor refusing
every further job (spec §5), accumulating the emitted events. -/
def Client.run (s : ClientState) : List Op → ClientState × List Event
  | [] => (s, [])
  | op :: rest =>
    if s.stopped then Client.run s rest
    else
      let r := Client.step s op
      let r' := Client.run r.1 rest
      (r'.1, r.2 ++ r'.2)

/-- The number of `handle_ended` callbacks in an event list. -/
def countEnded (events : List Event) : Nat :=
  events.countP (fun e =>
    match e with
    | .handleEnded _ => true
    | _ => false)

/-- `internalEnd` stands for `Client::end` call sites other than the ICE
handler; in the source none of those sites passes `IceFailedAfterConnected`
or `IceFailedWhileConnecting` (the ICE handler is their only user). An op
list models the source when it respects that. -/
def opOk : Op → Bool
  | .internalEnd .IceFailedAfterConnected => false
  | .internalEnd .IceFailedWhileConnecting => false
  | _ => true

/-- The joined-members set as claim C2 words it: the unique user ids
among the peek's devices, dropping devices with no user id, **minus the
local device if joined**. -/
def joinedMembersPerClaim (s : ClientState) (p : PeekInfo) : Finset UserId :=
  ((p.devices.filter (fun d =>
      match s.join_state with
      | .Joined local_demux_id => d.demux_id != local_demux_id
      | _ => true)).filterMap (fun d => d.user_id)).toFinset

/-- The `handle_ended(IceFailedAfterConnected)` callback, the event the
last sentence of claim C7 is about. -/
def iceFailedEvent : Event := .handleEnded .IceFailedAfterConnected

/-- The `handle_connection_state_changed(Connected)` callback: the
observable marker that the connection state has become `Connected`. -/
def connectedEvent : Event := .connectionStateChanged .Connected

/-- `connectedPrecedes events` holds when no
`handle_ended(IceFailedAfterConnected)` occurs before the first
`handle_connection_state_changed(Connected)`: every such `handle_ended`
in the trace is preceded by a `Connected` notification. -/
def connectedPrecedes : List Event → Bool
  | [] => true
  | e :: rest =>
    if e = connectedEvent then true
    else if e = iceFailedEvent then false
    else connectedPrecedes rest

/-! ## Theorems -/

/-! ### Keystream, MAC and framing lemmas (for claims C1 and C3) -/

/-- Evaluation of `decryptFrame` when a receive secret is installed. -/
theorem CryptoContext.decryptFrame_of_lookup (ctx : CryptoContext)
    (demux_id rc fc : Nat) (region aad mac : List Nat) (secret : Nat)
    (h : lookupReceiveSecret ctx.receive demux_id rc = some secret) :
    ctx.decryptFrame demux_id rc fc region aad mac =
      if macBytes secret rc fc region aad = mac then
        some (removeKeystreamFrom secret rc fc 0 region)
      else none := by
  unfold CryptoContext.decryptFrame
  rw [h]

/-- Evaluation of `decryptFrame` when no receive secret is installed. -/
theorem CryptoContext.decryptFrame_of_lookup_none (ctx : CryptoContext)
    (demux_id rc fc : Nat) (region aad mac : List Nat)
    (h : lookupReceiveSecret ctx.receive demux_id rc = none) :
    ctx.decryptFrame demux_id rc fc region aad mac = none := by
  unfold CryptoContext.decryptFrame
  rw [h]

theorem applyKeystreamFrom_length (secret rc fc i : Nat) (l : List Nat) :
    (applyKeystreamFrom secret rc fc i l).length = l.length := by
  induction l generalizing i with
  | nil => rfl
  | cons b rest ih => simp [applyKeystreamFrom, ih]

theorem keystreamByte_lt (secret rc fc i : Nat) : keystreamByte secret rc fc i < 256 :=
  Nat.mod_lt _ (by omega)

theorem removeKeystreamFrom_applyKeystreamFrom (secret rc fc : Nat) (l : List Nat)
    (i : Nat) (hb : ∀ b ∈ l, b < 256) :
    removeKeystreamFrom secret rc fc i (applyKeystreamFrom secret rc fc i l) = l := by
  induction l generalizing i with
  | nil => rfl
  | cons b rest ih =>
    have hblt : b < 256 := hb b (by simp)
    have hk : keystreamByte secret rc fc i < 256 := keystreamByte_lt secret rc fc i
    simp only [applyKeystreamFrom, removeKeystreamFrom, List.cons.injEq]
    refine ⟨by omega, ih (i + 1) (fun x hx => hb x (by simp [hx]))⟩

theorem macBytes_length (secret rc fc : Nat) (ct aad : List Nat) :
    (macBytes secret rc fc ct aad).length = 16 := by
  simp [macBytes]

theorem be32Bytes_length (n : Nat) : (be32Bytes n).length = 4 := by
  simp [be32Bytes]

theorem u32FromBeBytes_be32Bytes (n : Nat) (h : n ≤ 4294967295) :
    u32FromBeBytes (be32Bytes n) = n := by
  simp only [u32FromBeBytes, be32Bytes, List.getD_cons_zero, List.getD_cons_succ]
  omega

theorem take_append_sub (S T : List Nat) :
    (S ++ T).take ((S ++ T).length - T.length) = S := by
  have h : (S ++ T).length - T.length = S.length := by
    simp only [List.length_append]; omega
  rw [h, List.take_left]

theorem drop_append_sub (S T : List Nat) :
    (S ++ T).drop ((S ++ T).length - T.length) = T := by
  have h : (S ++ T).length - T.length = S.length := by
    simp only [List.length_append]; omega
  rw [h, List.drop_left]

/-- Symbolic evaluation of `Client::encrypt` when the header fits and the
frame counter has not overflowed. -/
theorem Client.encrypt_eq (ctx : CryptoContext) (uhl : Nat) (P : List Nat)
    (hlen : uhl ≤ P.length) (hfc : ctx.send.frame_counter ≤ 4294967295) :
    Client.encrypt ctx uhl P = some
      ({ ctx with send := { ctx.send with frame_counter := ctx.send.frame_counter + 1 } },
       P.take uhl ++
         applyKeystreamFrom ctx.send.secret ctx.send.ratchet_counter
           ctx.send.frame_counter 0 (P.drop uhl) ++
         [ctx.send.ratchet_counter % 256] ++
         be32Bytes ctx.send.frame_counter ++
         macBytes ctx.send.secret ctx.send.ratchet_counter ctx.send.frame_counter
           (applyKeystreamFrom ctx.send.secret ctx.send.ratchet_counter
             ctx.send.frame_counter 0 (P.drop uhl))
           (P.take uhl)) := by
  unfold Client.encrypt CryptoContext.encryptFrame
  have hnot : ¬ ctx.send.frame_counter > 4294967295 := by omega
  simp [hlen, hnot]

/-- Symbolic evaluation of `Client::decrypt` on a well-framed ciphertext:
the reads recover the header, payload, ratchet counter, frame counter and
MAC, and the result is the frame-crypto verdict. -/
theorem Client.decrypt_structure (ctx : CryptoContext) (remote_demux_id uhl : Nat)
    (header ct fcbytes mac : List Nat) (rcb : Nat)
    (hh : header.length = uhl) (hfcb : fcbytes.length = 4)
    (hmac : mac.length = 16) :
    Client.decrypt ctx remote_demux_id uhl (header ++ ct ++ [rcb] ++ fcbytes ++ mac) =
      match ctx.decryptFrame remote_demux_id rcb (u32FromBeBytes fcbytes) ct header mac with
      | some payload => some (header ++ payload)
      | none => none := by
  have e1 : (header ++ ct ++ [rcb] ++ fcbytes ++ mac).take uhl = header := by
    rw [List.append_assoc, List.append_assoc, List.append_assoc]
    exact List.take_left' hh
  have e2 : (header ++ ct ++ [rcb] ++ fcbytes ++ mac).drop uhl =
      ct ++ [rcb] ++ fcbytes ++ mac := by
    rw [List.append_assoc, List.append_assoc, List.append_assoc,
      List.drop_left' hh, ← List.append_assoc, ← List.append_assoc]
  have e3 : (ct ++ [rcb] ++ fcbytes ++ mac).drop
      ((ct ++ [rcb] ++ fcbytes ++ mac).length - 16) = mac := by
    have := drop_append_sub (ct ++ [rcb] ++ fcbytes) mac
    rw [hmac] at this
    exact this
  have e4 : (ct ++ [rcb] ++ fcbytes ++ mac).take
      ((ct ++ [rcb] ++ fcbytes ++ mac).length - 16) = ct ++ [rcb] ++ fcbytes := by
    have := take_append_sub (ct ++ [rcb] ++ fcbytes) mac
    rw [hmac] at this
    exact this
  have e5 : (ct ++ [rcb] ++ fcbytes).drop ((ct ++ [rcb] ++ fcbytes).length - 4) =
      fcbytes := by
    have := drop_append_sub (ct ++ [rcb]) fcbytes
    rw [hfcb] at this
    exact this
  have e6 : (ct ++ [rcb] ++ fcbytes).take ((ct ++ [rcb] ++ fcbytes).length - 4) =
      ct ++ [rcb] := by
    have := take_append_sub (ct ++ [rcb]) fcbytes
    rw [hfcb] at this
    exact this
  have hlen1 : (ct ++ [rcb]).length - 1 = ct.length := by simp
  have e7 : (ct ++ [rcb]).drop ((ct ++ [rcb]).length - 1) = [rcb] := by
    rw [hlen1, List.drop_left]
  have e8 : (ct ++ [rcb]).take ((ct ++ [rcb]).length - 1) = ct := by
    rw [hlen1, List.take_left]
  have hClen : (header ++ ct ++ [rcb] ++ fcbytes ++ mac).length =
      uhl + ct.length + 21 := by
    simp only [List.length_append, List.length_cons, List.length_nil, hh, hfcb, hmac]
  have hRlen : (ct ++ [rcb] ++ fcbytes ++ mac).length = ct.length + 21 := by
    simp [hfcb, hmac]
  have hR2len : (ct ++ [rcb] ++ fcbytes).length = ct.length + 5 := by
    simp [hfcb]
  have hR3len : (ct ++ [rcb]).length = ct.length + 1 := by simp
  unfold Client.decrypt
  rw [if_pos (by omega : uhl ≤ (header ++ ct ++ [rcb] ++ fcbytes ++ mac).length)]
  simp only [e1, e2]
  rw [if_pos (by omega : 16 ≤ (ct ++ [rcb] ++ fcbytes ++ mac).length)]
  simp only [e3, e4]
  rw [if_pos (by omega : 4 ≤ (ct ++ [rcb] ++ fcbytes).length)]
  simp only [e5, e6]
  rw [if_pos (by omega : 1 ≤ (ct ++ [rcb]).length)]
  simp only [e7, e8, List.getD_cons_zero]

/-- Claim C3: `encrypt(is_audio, P)` (for `P` at least as long as the
unencrypted header, 1 byte for audio and 10 for video, and a
non-overflowed frame counter) produces a ciphertext of length exactly
`|P| + 21` that is the clear header (the first
`unencrypted_media_header_len` bytes of `P`), then the encrypted
remainder, then the 1-byte ratchet counter, the 4-byte big-endian frame
counter, and the 16-byte MAC. -/
theorem C3_encrypt_layout (ctx : CryptoContext) (is_audio : Bool) (P : List Nat)
    (hlen : unencrypted_media_header_len is_audio ≤ P.length)
    (hfc : ctx.send.frame_counter ≤ 4294967295) :
    ∃ ctx' C, Client.encrypt_media ctx is_audio P = some (ctx', C) ∧
      C.length = P.length + 21 ∧
      C.take (unencrypted_media_header_len is_audio) =
        P.take (unencrypted_media_header_len is_audio) ∧
      C = P.take (unencrypted_media_header_len is_audio) ++
          applyKeystreamFrom ctx.send.secret ctx.send.ratchet_counter
            ctx.send.frame_counter 0 (P.drop (unencrypted_media_header_len is_audio)) ++
          [ctx.send.ratchet_counter % 256] ++
          be32Bytes ctx.send.frame_counter ++
          macBytes ctx.send.secret ctx.send.ratchet_counter ctx.send.frame_counter
            (applyKeystreamFrom ctx.send.secret ctx.send.ratchet_counter
              ctx.send.frame_counter 0 (P.drop (unencrypted_media_header_len is_audio)))
            (P.take (unencrypted_media_header_len is_audio)) ∧
      (be32Bytes ctx.send.frame_counter).length = 4 ∧
      (macBytes ctx.send.secret ctx.send.ratchet_counter ctx.send.frame_counter
        (applyKeystreamFrom ctx.send.secret ctx.send.ratchet_counter
          ctx.send.frame_counter 0 (P.drop (unencrypted_media_header_len is_audio)))
        (P.take (unencrypted_media_header_len is_audio))).length = 16 ∧
      unencrypted_media_header_len true = 1 ∧ unencrypted_media_header_len false = 10 := by
  set uhl := unencrypted_media_header_len is_audio with huhl
  refine ⟨_, _, Client.encrypt_eq ctx uhl P hlen hfc, ?_, ?_, rfl, be32Bytes_length _,
    macBytes_length _ _ _ _ _, rfl, rfl⟩
  · simp only [List.length_append, List.length_take, applyKeystreamFrom_length,
      List.length_drop, be32Bytes_length, macBytes_length, List.length_cons,
      List.length_nil]
    omega
  · rw [List.append_assoc, List.append_assoc, List.append_assoc]
    exact List.take_left' (by simp; omega)

/-- Claim C1: a decrypting context that has installed the sender's media
key (the same ratchet state used to encrypt) under the sender's demux id
recovers exactly `P` from `encrypt(is_audio, P)`; a context with no key
installed for that demux id fails to decrypt. -/
theorem C1_encrypt_decrypt_roundtrip (sctx rctx : CryptoContext)
    (remote_demux_id : Nat) (is_audio : Bool) (P : List Nat)
    (hbytes : ∀ b ∈ P, b < 256)
    (hlen : unencrypted_media_header_len is_audio ≤ P.length)
    (hrc : sctx.send.ratchet_counter < 256)
    (hfc : sctx.send.frame_counter ≤ 4294967295) :
    ∃ sctx' C, Client.encrypt_media sctx is_audio P = some (sctx', C) ∧
      (lookupReceiveSecret rctx.receive remote_demux_id sctx.send.ratchet_counter =
          some sctx.send.secret →
        Client.decrypt_media rctx remote_demux_id is_audio C = some P) ∧
      ((∀ e ∈ rctx.receive, e.1 ≠ remote_demux_id) →
        Client.decrypt_media rctx remote_demux_id is_audio C = none) := by
  set uhl := unencrypted_media_header_len is_audio with huhl
  set ct := applyKeystreamFrom sctx.send.secret sctx.send.ratchet_counter
    sctx.send.frame_counter 0 (P.drop uhl) with hct
  set mac := macBytes sctx.send.secret sctx.send.ratchet_counter
    sctx.send.frame_counter ct (P.take uhl) with hmac
  have hrcmod : sctx.send.ratchet_counter % 256 = sctx.send.ratchet_counter :=
    Nat.mod_eq_of_lt hrc
  have hdec : Client.decrypt_media rctx remote_demux_id is_audio
      (P.take uhl ++ ct ++ [sctx.send.ratchet_counter % 256] ++
        be32Bytes sctx.send.frame_counter ++ mac) =
      match rctx.decryptFrame remote_demux_id (sctx.send.ratchet_counter % 256)
        (u32FromBeBytes (be32Bytes sctx.send.frame_counter)) ct (P.take uhl) mac with
      | some payload => some (P.take uhl ++ payload)
      | none => none := by
    unfold Client.decrypt_media
    exact Client.decrypt_structure rctx remote_demux_id uhl (P.take uhl) ct
      (be32Bytes sctx.send.frame_counter) mac (sctx.send.ratchet_counter % 256)
      (by simp; omega) (be32Bytes_length _) (macBytes_length _ _ _ _ _)
  refine ⟨_, _, Client.encrypt_eq sctx uhl P hlen hfc, ?_, ?_⟩
  · intro hkey
    rw [hdec, hrcmod, u32FromBeBytes_be32Bytes _ hfc,
      CryptoContext.decryptFrame_of_lookup rctx remote_demux_id _ _ ct
        (List.take uhl P) mac _ hkey,
      if_pos hmac.symm]
    show some (List.take uhl P ++ removeKeystreamFrom sctx.send.secret
      sctx.send.ratchet_counter sctx.send.frame_counter 0 ct) = some P
    rw [hct, removeKeystreamFrom_applyKeystreamFrom _ _ _ _ _
      (fun b hb => hbytes b (List.drop_subset _ _ hb)),
      List.take_append_drop]
  · intro hnone
    have hl : lookupReceiveSecret rctx.receive remote_demux_id
        (sctx.send.ratchet_counter % 256) = none := by
      unfold lookupReceiveSecret
      rw [List.find?_eq_none.mpr]
      · rfl
      · intro e he
        simp only [Bool.and_eq_true, beq_iff_eq, not_and]
        intro h1
        exact absurd h1 (hnone e he)
    rw [hdec, CryptoContext.decryptFrame_of_lookup_none rctx remote_demux_id _ _ ct
      (List.take uhl P) mac hl]

/-- Witness for claim C3 at the audio plaintext `"Fake Audio"` and a fresh
send ratchet. -/
theorem C3_encrypt_layout_witness :
    ∃ ctx' C,
      Client.encrypt_media ⟨⟨0, 42, 0⟩, []⟩ true
        [70, 97, 107, 101, 32, 65, 117, 100, 105, 111] = some (ctx', C) ∧
      C.length = [70, 97, 107, 101, 32, 65, 117, 100, 105, 111].length + 21 ∧
      C.take (unencrypted_media_header_len true) =
        [70, 97, 107, 101, 32, 65, 117, 100, 105, 111].take
          (unencrypted_media_header_len true) ∧
      C = [70, 97, 107, 101, 32, 65, 117, 100, 105, 111].take
            (unencrypted_media_header_len true) ++
          applyKeystreamFrom 42 0 0 0
            ([70, 97, 107, 101, 32, 65, 117, 100, 105, 111].drop
              (unencrypted_media_header_len true)) ++
          [0 % 256] ++ be32Bytes 0 ++
          macBytes 42 0 0
            (applyKeystreamFrom 42 0 0 0
              ([70, 97, 107, 101, 32, 65, 117, 100, 105, 111].drop
                (unencrypted_media_header_len true)))
            ([70, 97, 107, 101, 32, 65, 117, 100, 105, 111].take
              (unencrypted_media_header_len true)) ∧
      (be32Bytes 0).length = 4 ∧
      (macBytes 42 0 0
        (applyKeystreamFrom 42 0 0 0
          ([70, 97, 107, 101, 32, 65, 117, 100, 105, 111].drop
            (unencrypted_media_header_len true)))
        ([70, 97, 107, 101, 32, 65, 117, 100, 105, 111].take
          (unencrypted_media_header_len true))).length = 16 ∧
      unencrypted_media_header_len true = 1 ∧ unencrypted_media_header_len false = 10 :=
  C3_encrypt_layout ⟨⟨0, 42, 0⟩, []⟩ true
    [70, 97, 107, 101, 32, 65, 117, 100, 105, 111] (by decide) (by decide)

/-- Witness for claim C1: sender demux id 7 encrypts `"Fake Audio"`; a
receiver that installed the sender's ratchet-0 secret recovers it; a
receiver with no key for demux id 7 fails. -/
theorem C1_encrypt_decrypt_roundtrip_witness :
    ∃ C, (∃ sctx', Client.encrypt_media ⟨⟨0, 42, 0⟩, []⟩ true
        [70, 97, 107, 101, 32, 65, 117, 100, 105, 111] = some (sctx', C)) ∧
      Client.decrypt_media ⟨⟨0, 5, 0⟩, [(7, 0, 42)]⟩ 7 true C =
        some [70, 97, 107, 101, 32, 65, 117, 100, 105, 111] ∧
      Client.decrypt_media ⟨⟨0, 5, 0⟩, []⟩ 7 true C = none := by
  obtain ⟨s1, C, henc, hgood, -⟩ :=
    C1_encrypt_decrypt_roundtrip ⟨⟨0, 42, 0⟩, []⟩ ⟨⟨0, 5, 0⟩, [(7, 0, 42)]⟩ 7 true
      [70, 97, 107, 101, 32, 65, 117, 100, 105, 111]
      (by decide) (by decide) (by decide) (by decide)
  obtain ⟨s2, C2, henc2, -, hbad⟩ :=
    C1_encrypt_decrypt_roundtrip ⟨⟨0, 42, 0⟩, []⟩ ⟨⟨0, 5, 0⟩, []⟩ 7 true
      [70, 97, 107, 101, 32, 65, 117, 100, 105, 111]
      (by decide) (by decide) (by decide) (by decide)
  rw [henc] at henc2
  injection henc2 with hpair
  injection hpair with hs hC
  subst hs
  subst hC
  exact ⟨C, ⟨s1, henc⟩, hgood (by decide), hbad (by decide)⟩

/-! ### Hex parsing characterization (for claim C4) -/

theorem hexDigitValue_lt_16 (c : Char) : (hexDigitValue c).getD 0 < 16 := by
  unfold hexDigitValue
  split
  · simp only [Option.getD_some]; omega
  · split
    · simp only [Option.getD_some]; omega
    · split
      · simp only [Option.getD_some]; omega
      · simp

theorem hexDigitValue_isSome_ascii (c : Char) (h : isHexDigitChar c = true) :
    c.toNat < 128 := by
  unfold isHexDigitChar hexDigitValue at h
  split at h
  · omega
  · split at h
    · omega
    · split at h
      · omega
      · simp at h

theorem charUtf8Bytes_ascii (c : Char) (h : c.toNat < 128) :
    charUtf8Bytes c = [c.toNat] := by
  unfold charUtf8Bytes
  simp [h]

theorem flatten_utf8_length_of_ascii (l : List Char) (h : ∀ c ∈ l, c.toNat < 128) :
    ((l.map charUtf8Bytes).flatten).length = l.length := by
  induction l with
  | nil => simp
  | cons c rest ih =>
    have hc : c.toNat < 128 := h c (by simp)
    have hr := ih (fun x hx => h x (by simp [hx]))
    simp only [List.map_cons, List.flatten_cons, List.length_append,
      charUtf8Bytes_ascii c hc, List.length_cons, List.length_nil, hr]
    omega

theorem utf8Len_of_ascii (s : String) (h : ∀ c ∈ s.data, c.toNat < 128) :
    utf8Len s = s.data.length := by
  unfold utf8Len utf8Bytes
  exact flatten_utf8_length_of_ascii s.data h

theorem hexValueFrom_le (cs : List Char) (acc : Nat) : acc ≤ hexValueFrom acc cs := by
  induction cs generalizing acc with
  | nil => simp [hexValueFrom]
  | cons c rest ih =>
    calc acc ≤ acc * 16 + (hexDigitValue c).getD 0 := by omega
    _ ≤ hexValueFrom (acc * 16 + (hexDigitValue c).getD 0) rest := ih _
    _ = hexValueFrom acc (c :: rest) := rfl

theorem hexValueFrom_lt (cs : List Char) (acc : Nat) :
    hexValueFrom acc cs < (acc + 1) * 16 ^ cs.length := by
  induction cs generalizing acc with
  | nil => simp [hexValueFrom]
  | cons c rest ih =>
    have hd : (hexDigitValue c).getD 0 < 16 := hexDigitValue_lt_16 c
    calc hexValueFrom acc (c :: rest)
        = hexValueFrom (acc * 16 + (hexDigitValue c).getD 0) rest := rfl
      _ < (acc * 16 + (hexDigitValue c).getD 0 + 1) * 16 ^ rest.length := ih _
      _ ≤ ((acc + 1) * 16) * 16 ^ rest.length := by
          have : acc * 16 + (hexDigitValue c).getD 0 + 1 ≤ (acc + 1) * 16 := by omega
          exact Nat.mul_le_mul_right _ this
      _ = (acc + 1) * 16 ^ (rest.length + 1) := by ring
      _ = (acc + 1) * 16 ^ (c :: rest).length := by simp

theorem parseHexAux_sound (cs : List Char) (acc v : Nat)
    (h : parseHexAux acc cs = some v) :
    cs.all isHexDigitChar = true ∧ v = hexValueFrom acc cs := by
  induction cs generalizing acc with
  | nil =>
    simp [parseHexAux] at h
    simp [hexValueFrom, h]
  | cons c rest ih =>
    unfold parseHexAux at h
    cases hd : hexDigitValue c with
    | none => simp [hd] at h
    | some d =>
      simp only [hd] at h
      split at h
      · obtain ⟨h1, h2⟩ := ih _ h
        refine ⟨?_, ?_⟩
        · simp [List.all_cons, h1, isHexDigitChar, hd]
        · simpa [hexValueFrom, hd] using h2
      · simp at h

theorem parseHexAux_complete (cs : List Char) (acc : Nat)
    (hall : cs.all isHexDigitChar = true)
    (hbound : hexValueFrom acc cs < 18446744073709551616) :
    parseHexAux acc cs = some (hexValueFrom acc cs) := by
  induction cs generalizing acc with
  | nil => simp [parseHexAux, hexValueFrom]
  | cons c rest ih =>
    simp only [List.all_cons, Bool.and_eq_true] at hall
    obtain ⟨hc, hrest⟩ := hall
    unfold isHexDigitChar at hc
    cases hd : hexDigitValue c with
    | none => simp [hd] at hc
    | some d =>
      have hstep : hexValueFrom acc (c :: rest) =
          hexValueFrom (acc * 16 + d) rest := by simp [hexValueFrom, hd]
      have hmid : acc * 16 + d < 18446744073709551616 := by
        have := hexValueFrom_le rest (acc * 16 + d)
        omega
      unfold parseHexAux
      simp only [hd, hmid, if_pos]
      rw [hstep]
      exact ih _ hrest (hstep ▸ hbound)

theorem isHexDigitChar_ne_sign (c : Char) (h : isHexDigitChar c = true) :
    c ≠ '+' ∧ c ≠ '-' := by
  constructor <;> rintro rfl <;> exact absurd h (by decide)

/-- Claim C4 (amended form): `RingId::from_era_id` agrees everywhere with the
amended description (numeric branch for exactly 16 hex digits or `'+'`
followed by 15 hex digits; SHA-256 fallback otherwise). -/
theorem C4_from_era_id_amended (era_id : String) :
    RingId.from_era_id era_id = ringIdFromEraAmended era_id := by
  unfold RingId.from_era_id ringIdFromEraAmended
  by_cases h16 : era_id.data.length = 16 ∧ era_id.data.all isHexDigitChar
  · -- exactly 16 hex digits: both take the numeric branch
    obtain ⟨hlen, hall⟩ := h16
    have hascii : ∀ c ∈ era_id.data, c.toNat < 128 := by
      intro c hc
      exact hexDigitValue_isSome_ascii c (by
        have := List.all_eq_true.mp hall c hc
        exact this)
    have hulen : utf8Len era_id = 16 := by rw [utf8Len_of_ascii era_id hascii, hlen]
    have hparse : u64FromStrRadix16 era_id = some (hexValueFrom 0 era_id.data) := by
      unfold u64FromStrRadix16
      cases hdata : era_id.data with
      | nil => rw [hdata] at hlen; simp at hlen
      | cons c rest =>
        have hc : isHexDigitChar c = true := by
          have := List.all_eq_true.mp hall c (by rw [hdata]; simp)
          exact this
        obtain ⟨hplus, hminus⟩ := isHexDigitChar_ne_sign c hc
        have hbound : hexValueFrom 0 (c :: rest) < 18446744073709551616 := by
          have := hexValueFrom_lt (c :: rest) 0
          have hl : (c :: rest).length = 16 := by rw [← hdata, hlen]
          rw [hl] at this
          calc hexValueFrom 0 (c :: rest) < (0 + 1) * 16 ^ 16 := this
            _ = 18446744073709551616 := by norm_num
        rw [hdata] at hall
        simp only [hplus, hminus, if_neg, if_false]
        rw [parseHexAux_complete (c :: rest) 0 hall hbound]
    rw [hulen, hparse]
    simp [hlen, hall]
  · -- not 16 hex digits
    rw [if_neg h16]
    by_cases hplus15 : era_id.data.head? = some '+' ∧ era_id.data.tail.length = 15 ∧
        era_id.data.tail.all isHexDigitChar
    · -- a '+' sign followed by 15 hex digits: the code still takes the numeric branch
      rw [if_pos hplus15]
      obtain ⟨hhead, hlen15, hall15⟩ := hplus15
      cases hdata : era_id.data with
      | nil => rw [hdata] at hhead; simp at hhead
      | cons c rest =>
        rw [hdata] at hhead hlen15 hall15
        simp only [List.head?_cons, Option.some_inj] at hhead
        simp only [List.tail_cons] at hlen15 hall15
        subst hhead
        have hascii : ∀ x ∈ era_id.data, x.toNat < 128 := by
          intro x hx
          rw [hdata] at hx
          rcases List.mem_cons.mp hx with hx | hx
          · subst hx; decide
          · exact hexDigitValue_isSome_ascii x (List.all_eq_true.mp hall15 x hx)
        have hulen : utf8Len era_id = 16 := by
          rw [utf8Len_of_ascii era_id hascii, hdata]
          simp [hlen15]
        have hbound : hexValueFrom 0 rest < 18446744073709551616 := by
          have := hexValueFrom_lt rest 0
          rw [hlen15] at this
          calc hexValueFrom 0 rest < (0 + 1) * 16 ^ 15 := this
            _ < 18446744073709551616 := by norm_num
        have hne : rest.isEmpty = false := by
          cases rest with
          | nil => simp at hlen15
          | cons r rs => simp
        have hparse : u64FromStrRadix16 era_id = some (hexValueFrom 0 rest) := by
          unfold u64FromStrRadix16
          rw [hdata]
          simp only [if_pos rfl, hne, Bool.false_eq_true, if_false]
          exact parseHexAux_complete rest 0 hall15 hbound
        rw [hulen, hparse]
        simp
    · -- every other string: the parse fails (or the length is not 16)
      rw [if_neg hplus15]
      by_cases hulen : utf8Len era_id = 16
      · have hparse : u64FromStrRadix16 era_id = none := by
          unfold u64FromStrRadix16
          cases hdata : era_id.data with
          | nil => simp
          | cons c rest =>
            by_cases hc : c = '+'
            · subst hc
              simp only [if_pos rfl]
              cases hrest : rest with
              | nil => simp
              | cons r rs =>
                simp only [List.isEmpty_cons, Bool.false_eq_true, if_false]
                cases hp : parseHexAux 0 (r :: rs) with
                | none => rfl
                | some v =>
                  exfalso
                  obtain ⟨hall15, _⟩ := parseHexAux_sound (r :: rs) 0 v hp
                  have hascii : ∀ x ∈ era_id.data, x.toNat < 128 := by
                    intro x hx
                    rw [hdata, hrest] at hx
                    rcases List.mem_cons.mp hx with hx | hx
                    · subst hx; decide
                    · exact hexDigitValue_isSome_ascii x (List.all_eq_true.mp hall15 x hx)
                  have hl : utf8Len era_id = (r :: rs).length + 1 := by
                    rw [utf8Len_of_ascii era_id hascii, hdata, hrest]
                    simp
                  refine hplus15 ⟨by rw [hdata]; simp, ?_, ?_⟩
                  · rw [hdata, hrest]
                    simp only [List.tail_cons]
                    have : (r :: rs).length = 15 := by omega
                    exact this
                  · rw [hdata, hrest]
                    simpa using hall15
            · by_cases hminus : c = '-'
              · simp [hc, hminus]
              · simp only [hc, hminus, if_neg, if_false]
                cases hp : parseHexAux 0 (c :: rest) with
                | none => rfl
                | some v =>
                  exfalso
                  obtain ⟨hall, _⟩ := parseHexAux_sound (c :: rest) 0 v hp
                  have hascii : ∀ x ∈ era_id.data, x.toNat < 128 := by
                    intro x hx
                    rw [hdata] at hx
                    exact hexDigitValue_isSome_ascii x (List.all_eq_true.mp hall x hx)
                  have hl : utf8Len era_id = era_id.data.length := utf8Len_of_ascii era_id hascii
                  exact h16 ⟨by rw [← hl, hulen], by rw [hdata]; exact hall⟩
        rw [hulen, hparse]
        simp
      · simp [hulen]

/-! ### Joined members after a peek (claim C2) -/

theorem maybe_request_joined_members (s : ClientState) (now max_age : Nat)
    (rr : Bool) :
    (Client.maybe_request_remote_devices s now max_age rr).1.joined_members =
      s.joined_members := by
  unfold Client.maybe_request_remote_devices
  dsimp only
  repeat' split
  all_goals rfl

theorem maybe_request_events (s : ClientState) (now max_age : Nat) (rr : Bool) :
    ∀ ev ∈ (Client.maybe_request_remote_devices s now max_age rr).2,
      ev = Event.sfuPeekRequested := by
  unfold Client.maybe_request_remote_devices
  dsimp only
  repeat' split
  all_goals simp

theorem set_peek_result_tail_joined_members (s : ClientState) (p : PeekInfo)
    (u : Finset UserId) (sig : Nat) (b : Bool) (now : Nat) (acc : List Event) :
    (Client.set_peek_result_tail s p u sig b now acc).1.joined_members = u := by
  unfold Client.set_peek_result_tail Client.request_remote_devices_as_soon_as_possible
  split
  · rw [maybe_request_joined_members]
  · rfl

theorem set_peek_result_tail_peekChanged (s : ClientState) (p : PeekInfo)
    (u : Finset UserId) (sig : Nat) (b : Bool) (now : Nat) (acc : List Event)
    (u' : Finset UserId)
    (h : Event.handlePeekChanged u' ∈ (Client.set_peek_result_tail s p u sig b now acc).2) :
    Event.handlePeekChanged u' ∈ acc := by
  unfold Client.set_peek_result_tail Client.request_remote_devices_as_soon_as_possible at h
  split at h
  · rw [List.mem_append] at h
    rcases h with h | h
    · exact h
    · have := maybe_request_events _ _ _ _ _ h
      exact absurd this (by simp)
  · exact h

/-- Claim C2 (amended form): after a successful `set_peek_result` whose
peer-connection update (if any) succeeds, the stored `joined_members`
and every user-id set passed to `handle_peek_changed` equal the unique
user ids among the peek's devices, dropping devices with no user id —
the **local** device's user id is **not** removed. -/
theorem C2_joined_members_amended (s : ClientState) (peek_info : PeekInfo)
    (now : Nat) :
    (Client.set_peek_result_inner s (some peek_info) true now).1.joined_members =
      peekUserIdSet peek_info ∧
    (∀ u, Event.handlePeekChanged u ∈
        (Client.set_peek_result_inner s (some peek_info) true now).2 →
      u = peekUserIdSet peek_info) := by
  unfold Client.set_peek_result_inner
  cases hjs : s.join_state with
  | Joined local_demux_id =>
    cases hdhe : s.dhe_state with
    | Negotiated =>
      simp only [hjs, hdhe]
      constructor
      · split
        · simp_all
        · split <;> rw [set_peek_result_tail_joined_members]
      · intro u hu
        split at hu
        · simp_all
        · split at hu <;>
          · have := set_peek_result_tail_peekChanged _ _ _ _ _ _ _ _ hu
            rw [List.mem_append] at this
            rcases this with h | h
            · split at h <;> simp_all
            · split at h <;> simp_all
    | NotYetStarted =>
      simp only [hjs, hdhe]
      refine ⟨set_peek_result_tail_joined_members _ _ _ _ _ _ _, ?_⟩
      intro u hu
      have := set_peek_result_tail_peekChanged _ _ _ _ _ _ _ _ hu
      split at this <;> simp_all
    | WaitingForServerPublicKey =>
      simp only [hjs, hdhe]
      refine ⟨set_peek_result_tail_joined_members _ _ _ _ _ _ _, ?_⟩
      intro u hu
      have := set_peek_result_tail_peekChanged _ _ _ _ _ _ _ _ hu
      split at this <;> simp_all
  | NotJoined r =>
    simp only [hjs]
    refine ⟨set_peek_result_tail_joined_members _ _ _ _ _ _ _, ?_⟩
    intro u hu
    have := set_peek_result_tail_peekChanged _ _ _ _ _ _ _ _ hu
    split at this <;> simp_all
  | Joining =>
    simp only [hjs]
    refine ⟨set_peek_result_tail_joined_members _ _ _ _ _ _ _, ?_⟩
    intro u hu
    have := set_peek_result_tail_peekChanged _ _ _ _ _ _ _ _ hu
    split at this <;> simp_all

set_option maxRecDepth 100000 in
/-- Claim C2, counterexample: the claim as stated is false. A client
joined as demux id 1 with user id `[1]` receives a peek whose only device
is its own `(demuxId 1, userId [1])`: the claim predicts the empty set
("minus the local device if joined"), but the code stores `{[1]}` — the
user-id set is computed over **all** devices, without dropping the local
one. -/
theorem C2_counterexample :
    (Client.set_peek_result_inner
        { initialState .CallLink none with
          connection_state := .Connected,
          join_state := .Joined 1,
          dhe_state := .Negotiated }
        (some ⟨[⟨1, some [1]⟩], [], none, none, none⟩) true 0).1.joined_members =
      {[1]} ∧
    joinedMembersPerClaim
        { initialState .CallLink none with
          connection_state := .Connected,
          join_state := .Joined 1,
          dhe_state := .Negotiated }
        ⟨[⟨1, some [1]⟩], [], none, none, none⟩ = ∅ ∧
    (Client.set_peek_result_inner
        { initialState .CallLink none with
          connection_state := .Connected,
          join_state := .Joined 1,
          dhe_state := .Negotiated }
        (some ⟨[⟨1, some [1]⟩], [], none, none, none⟩) true 0).1.joined_members ≠
      joinedMembersPerClaim
        { initialState .CallLink none with
          connection_state := .Connected,
          join_state := .Joined 1,
          dhe_state := .Negotiated }
        ⟨[⟨1, some [1]⟩], [], none, none, none⟩ := by
  refine ⟨by decide, by decide, by decide⟩

/-! ### The ring coordinator (claim C8) -/

theorem demuxIdSet_eq_empty (l : List RemoteDeviceState) :
    demuxIdSet l = ∅ ↔ l = [] := by
  cases l <;> simp [demuxIdSet]

theorem maybe_request_ring_state (s : ClientState) (now max_age : Nat) (rr : Bool) :
    (Client.maybe_request_remote_devices s now max_age rr).1.outgoing_ring_state =
      s.outgoing_ring_state := by
  unfold Client.maybe_request_remote_devices
  dsimp only
  repeat' split
  all_goals rfl

theorem maybe_request_remote_devices_list (s : ClientState) (now max_age : Nat)
    (rr : Bool) :
    (Client.maybe_request_remote_devices s now max_age rr).1.remote_devices =
      s.remote_devices := by
  unfold Client.maybe_request_remote_devices
  dsimp only
  repeat' split
  all_goals rfl

theorem set_peek_result_tail_ring_state (s : ClientState) (p : PeekInfo)
    (u : Finset UserId) (sig : Nat) (b : Bool) (now : Nat) (acc : List Event) :
    (Client.set_peek_result_tail s p u sig b now acc).1.outgoing_ring_state =
      s.outgoing_ring_state := by
  unfold Client.set_peek_result_tail Client.request_remote_devices_as_soon_as_possible
  split
  · rw [maybe_request_ring_state]
  · rfl

theorem set_peek_result_tail_remote_devices (s : ClientState) (p : PeekInfo)
    (u : Finset UserId) (sig : Nat) (b : Bool) (now : Nat) (acc : List Event) :
    (Client.set_peek_result_tail s p u sig b now acc).1.remote_devices =
      s.remote_devices := by
  unfold Client.set_peek_result_tail Client.request_remote_devices_as_soon_as_possible
  split
  · rw [maybe_request_remote_devices_list]
  · rfl

/-- The joined-and-negotiated branch of `set_peek_result_inner` with a
successful peer-connection update: the remote devices become the rebuilt
list, and `HasSentRing` becomes `NotPermittedToRing` exactly when that
list is non-empty. -/
theorem set_peek_result_inner_ring_devices (s : ClientState) (peek_info : PeekInfo)
    (now local_demux_id : Nat)
    (hjs : s.join_state = .Joined local_demux_id)
    (hdhe : s.dhe_state = .Negotiated) :
    (Client.set_peek_result_inner s (some peek_info) true now).1.remote_devices =
      (rebuildRemoteDevices local_demux_id now peek_info.devices
        (buildDemuxMap s.remote_devices) s.has_ever_been_participating_client).1 ∧
    (Client.set_peek_result_inner s (some peek_info) true now).1.outgoing_ring_state =
      (if (rebuildRemoteDevices local_demux_id now peek_info.devices
            (buildDemuxMap s.remote_devices) s.has_ever_been_participating_client).1 = []
       then s.outgoing_ring_state
       else if (match s.outgoing_ring_state with
                | .HasSentRing _ => true
                | _ => false) = true
       then .NotPermittedToRing else s.outgoing_ring_state) := by
  unfold Client.set_peek_result_inner
  simp only [hjs, hdhe]
  dsimp only
  rw [if_neg (by simp)]
  by_cases hnd : (rebuildRemoteDevices local_demux_id now peek_info.devices
      (buildDemuxMap s.remote_devices) s.has_ever_been_participating_client).1 = []
  · rw [if_neg (by
      rw [not_and]
      intro hne
      exact absurd ((demuxIdSet_eq_empty _).mpr hnd) hne)]
    rw [if_pos hnd]
    exact ⟨set_peek_result_tail_remote_devices _ _ _ _ _ _ _,
      set_peek_result_tail_ring_state _ _ _ _ _ _ _⟩
  · rw [if_neg hnd]
    by_cases hsent : (match s.outgoing_ring_state with
        | OutgoingRingState.HasSentRing _ => true
        | _ => false) = true
    · rw [if_pos ⟨by
        intro he
        exact hnd ((demuxIdSet_eq_empty _).mp he), hsent⟩]
      rw [if_pos hsent]
      exact ⟨set_peek_result_tail_remote_devices _ _ _ _ _ _ _,
        set_peek_result_tail_ring_state _ _ _ _ _ _ _⟩
    · rw [if_neg (by
        rw [and_comm]
        exact fun h => hsent h.1)]
      rw [if_neg hsent]
      exact ⟨set_peek_result_tail_remote_devices _ _ _ _ _ _ _,
        set_peek_result_tail_ring_state _ _ _ _ _ _ _⟩

/-- Claim C8: the outgoing-ring lifecycle. (1) `ring(None)` in
`PermittedToRing(rid)` sends exactly one group-wide
`RingIntention{Ring, rid}` and moves to `HasSentRing(rid)` when the
remote device list is empty, `NotPermittedToRing` otherwise. (2) A later
`leave` emits a group-wide `RingIntention{Cancelled, rid}` when the state
is still `HasSentRing(rid)`, and (3) emits no ring intention otherwise.
(4) A roster update (peek) that brings other devices in while
`HasSentRing` moves the state to `NotPermittedToRing` (so the later leave
cancels nothing); an update that leaves the call empty keeps
`HasSentRing`. -/
theorem C8_ring_lifecycle :
    (∀ (s : ClientState) (rid : Int), s.outgoing_ring_state = .PermittedToRing rid →
      (Client.ring_inner s none).2 = [.ringIntentionSent .Ring rid] ∧
      (Client.ring_inner s none).1.outgoing_ring_state =
        (if s.remote_devices.isEmpty then .HasSentRing rid
         else .NotPermittedToRing)) ∧
    (∀ (s : ClientState) (rid : Int), s.outgoing_ring_state = .HasSentRing rid →
      Event.ringIntentionSent .Cancelled rid ∈ (Client.leave_inner s).2) ∧
    (∀ (s : ClientState) (ty : RingIntentionType) (rid : Int),
      Event.ringIntentionSent ty rid ∈ (Client.leave_inner s).2 →
      s.outgoing_ring_state = .HasSentRing rid ∧ ty = .Cancelled) ∧
    (∀ (s : ClientState) (peek_info : PeekInfo) (now local_demux_id : Nat) (rid : Int),
      s.join_state = .Joined local_demux_id → s.dhe_state = .Negotiated →
      s.outgoing_ring_state = .HasSentRing rid →
      (Client.set_peek_result_inner s (some peek_info) true now).1.outgoing_ring_state =
        (if (Client.set_peek_result_inner s (some peek_info) true now).1.remote_devices = []
         then .HasSentRing rid else .NotPermittedToRing)) := by
  refine ⟨?_, ?_, ?_, ?_⟩
  · intro s rid h
    unfold Client.ring_inner
    rw [h]
    by_cases he : s.remote_devices.isEmpty <;> simp [he]
  · intro s rid h
    unfold Client.leave_inner Client.cancel_full_group_ring_if_needed
    rw [h]
    dsimp only
    split
    all_goals simp
  · intro s ty rid h
    unfold Client.leave_inner Client.cancel_full_group_ring_if_needed at h
    cases hr : s.outgoing_ring_state <;> rw [hr] at h <;> dsimp only at h <;>
      split at h <;>
      simp_all [Client.release_busy, Client.set_join_state_and_notify_observer]
  · intro s peek_info now local_demux_id rid hjs hdhe hr
    obtain ⟨hdev, hring⟩ :=
      set_peek_result_inner_ring_devices s peek_info now local_demux_id hjs hdhe
    rw [hdev, hring, hr]
    by_cases hnd : (rebuildRemoteDevices local_demux_id now peek_info.devices
        (buildDemuxMap s.remote_devices) s.has_ever_been_participating_client).1 = []
    · simp [hnd]
    · simp [hnd]

/-- Witness for claim C8, at concrete states for each part: a permitted
client with an empty roster rings and auto-arms; a `HasSentRing` client
cancels on leave; a `NotPermittedToRing` client's leave is checked to
emit no intention via part 3's contrapositive at a concrete event; a peek
bringing in device 2 disarms the ring. -/
theorem C8_ring_lifecycle_witness :
    ((Client.ring_inner { initialState .CallLink none with
        outgoing_ring_state := .PermittedToRing 7 } none).2 =
      [.ringIntentionSent .Ring 7] ∧
     (Client.ring_inner { initialState .CallLink none with
        outgoing_ring_state := .PermittedToRing 7 } none).1.outgoing_ring_state =
      (if ({ initialState .CallLink none with
          outgoing_ring_state := .PermittedToRing 7 } : ClientState).remote_devices.isEmpty
       then .HasSentRing 7 else .NotPermittedToRing)) ∧
    Event.ringIntentionSent .Cancelled 7 ∈
      (Client.leave_inner { initialState .CallLink none with
        outgoing_ring_state := .HasSentRing 7 }).2 ∧
    (Client.set_peek_result_inner
        { initialState .CallLink none with
          connection_state := .Connected,
          join_state := .Joined 1,
          dhe_state := .Negotiated,
          outgoing_ring_state := .HasSentRing 7 }
        (some ⟨[⟨2, some [2]⟩], [], none, none, none⟩) true 0).1.outgoing_ring_state =
      (if (Client.set_peek_result_inner
          { initialState .CallLink none with
            connection_state := .Connected,
            join_state := .Joined 1,
            dhe_state := .Negotiated,
            outgoing_ring_state := .HasSentRing 7 }
          (some ⟨[⟨2, some [2]⟩], [], none, none, none⟩) true 0).1.remote_devices = []
       then .HasSentRing 7 else .NotPermittedToRing) :=
  ⟨C8_ring_lifecycle.1 _ 7 (by decide),
   C8_ring_lifecycle.2.1 _ 7 (by decide),
   C8_ring_lifecycle.2.2.2 _ ⟨[⟨2, some [2]⟩], [], none, none, none⟩ 0 1 7
     (by decide) (by decide) (by decide)⟩

/-! ### Runs of the actor (claims C7 and C9) -/

theorem run_stopped (s : ClientState) (ops : List Op) (h : s.stopped = true) :
    Client.run s ops = (s, []) := by
  induction ops with
  | nil => rfl
  | cons op rest ih =>
    unfold Client.run
    rw [if_pos h]
    exact ih

theorem countEnded_append (a b : List Event) :
    countEnded (a ++ b) = countEnded a + countEnded b :=
  List.countP_append _ _ _

theorem not_mem_of_countEnded_zero (l : List Event) (h : countEnded l = 0)
    (r : EndReason) : Event.handleEnded r ∉ l := by
  intro hmem
  unfold countEnded at h
  rw [List.countP_eq_zero] at h
  have := h _ hmem
  simp at this

theorem maybe_request_stopped (s : ClientState) (now max_age : Nat) (rr : Bool) :
    (Client.maybe_request_remote_devices s now max_age rr).1.stopped = s.stopped := by
  unfold Client.maybe_request_remote_devices
  dsimp only
  repeat' split
  all_goals rfl

theorem maybe_request_conn (s : ClientState) (now max_age : Nat) (rr : Bool) :
    (Client.maybe_request_remote_devices s now max_age rr).1.connection_state =
      s.connection_state := by
  unfold Client.maybe_request_remote_devices
  dsimp only
  repeat' split
  all_goals rfl

theorem maybe_request_countEnded (s : ClientState) (now max_age : Nat) (rr : Bool) :
    countEnded (Client.maybe_request_remote_devices s now max_age rr).2 = 0 := by
  unfold Client.maybe_request_remote_devices
  dsimp only
  repeat' split
  all_goals simp [countEnded]

theorem set_peek_result_tail_stopped (s : ClientState) (p : PeekInfo)
    (u : Finset UserId) (sig : Nat) (b : Bool) (now : Nat) (acc : List Event) :
    (Client.set_peek_result_tail s p u sig b now acc).1.stopped = s.stopped := by
  unfold Client.set_peek_result_tail Client.request_remote_devices_as_soon_as_possible
  split
  · rw [maybe_request_stopped]
  · rfl

theorem set_peek_result_tail_conn (s : ClientState) (p : PeekInfo)
    (u : Finset UserId) (sig : Nat) (b : Bool) (now : Nat) (acc : List Event) :
    (Client.set_peek_result_tail s p u sig b now acc).1.connection_state =
      s.connection_state := by
  unfold Client.set_peek_result_tail Client.request_remote_devices_as_soon_as_possible
  split
  · rw [maybe_request_conn]
  · rfl

theorem set_peek_result_tail_countEnded (s : ClientState) (p : PeekInfo)
    (u : Finset UserId) (sig : Nat) (b : Bool) (now : Nat) (acc : List Event) :
    countEnded (Client.set_peek_result_tail s p u sig b now acc).2 =
      countEnded acc := by
  unfold Client.set_peek_result_tail Client.request_remote_devices_as_soon_as_possible
  split
  · rw [countEnded_append, maybe_request_countEnded]
    omega
  · rfl

theorem leave_inner_countEnded (s : ClientState) :
    countEnded (Client.leave_inner s).2 = 0 := by
  unfold Client.leave_inner Client.cancel_full_group_ring_if_needed
  dsimp only
  repeat' split
  all_goals simp [Client.release_busy, Client.set_join_state_and_notify_observer,
    countEnded]

theorem leave_inner_stopped (s : ClientState) :
    (Client.leave_inner s).1.stopped = s.stopped := by
  unfold Client.leave_inner Client.cancel_full_group_ring_if_needed
  dsimp only
  repeat' split
  all_goals simp [Client.release_busy, Client.set_join_state_and_notify_observer]

theorem leave_inner_conn (s : ClientState) :
    (Client.leave_inner s).1.connection_state = s.connection_state := by
  unfold Client.leave_inner Client.cancel_full_group_ring_if_needed
  dsimp only
  repeat' split
  all_goals simp [Client.release_busy, Client.set_join_state_and_notify_observer]

theorem ring_inner_countEnded (s : ClientState) (recipient : Option UserId) :
    countEnded (Client.ring_inner s recipient).2 = 0 := by
  unfold Client.ring_inner
  repeat' split
  all_goals simp [countEnded]

theorem ring_inner_stopped (s : ClientState) (recipient : Option UserId) :
    (Client.ring_inner s recipient).1.stopped = s.stopped := by
  unfold Client.ring_inner
  repeat' split
  all_goals rfl

theorem ring_inner_conn (s : ClientState) (recipient : Option UserId) :
    (Client.ring_inner s recipient).1.connection_state = s.connection_state := by
  unfold Client.ring_inner
  repeat' split
  all_goals rfl

theorem speaker_countEnded (s : ClientState) (timestamp demux_id now : Nat) :
    countEnded (Client.handle_speaker_received s timestamp demux_id now).2 = 0 := by
  unfold Client.handle_speaker_received
  dsimp only
  repeat' split
  all_goals simp [countEnded]

theorem speaker_stopped (s : ClientState) (timestamp demux_id now : Nat) :
    (Client.handle_speaker_received s timestamp demux_id now).1.stopped =
      s.stopped := by
  unfold Client.handle_speaker_received
  dsimp only
  repeat' split
  all_goals rfl

theorem speaker_conn (s : ClientState) (timestamp demux_id now : Nat) :
    (Client.handle_speaker_received s timestamp demux_id now).1.connection_state =
      s.connection_state := by
  unfold Client.handle_speaker_received
  dsimp only
  repeat' split
  all_goals rfl

theorem connect_countEnded (s : ClientState) :
    countEnded (Client.connect s).2 = 0 := by
  unfold Client.connect Client.set_connection_state_and_notify_observer
  split
  all_goals simp [countEnded]

theorem connect_stopped (s : ClientState) :
    (Client.connect s).1.stopped = s.stopped := by
  unfold Client.connect Client.set_connection_state_and_notify_observer
  split
  all_goals rfl

/-- `Client::end` always leaves the connection state `NotConnected`
(either it already was, or it is set so before `handle_ended`). -/
theorem endWith_conn (s : ClientState) (r : EndReason) :
    (Client.endWith s r).1.connection_state = .NotConnected := by
  unfold Client.endWith
  dsimp only
  split
  · assumption
  all_goals simp [Client.set_connection_state_and_notify_observer]

/-- `Client::end` emits at most one `handle_ended`, and none at all when
it does not stop the actor. -/
theorem endWith_count (s : ClientState) (r : EndReason) :
    countEnded (Client.endWith s r).2 ≤ 1 ∧
    ((Client.endWith s r).1.stopped = false →
      countEnded (Client.endWith s r).2 = 0) := by
  unfold Client.endWith
  dsimp only
  split
  · constructor
    · split
      · rw [leave_inner_countEnded]
        omega
      · simp [countEnded]
    · intro
      split
      · rw [leave_inner_countEnded]
      · simp [countEnded]
  all_goals
    constructor
    · rw [countEnded_append, countEnded_append]
      split
      · rw [leave_inner_countEnded]
        simp [Client.set_connection_state_and_notify_observer, countEnded]
      · simp [Client.set_connection_state_and_notify_observer, countEnded]
    · intro h
      simp at h

/-- A `handle_ended(r')` emitted by `Client::end(r)` carries exactly `r`,
and only a connected (not `NotConnected`) client emits it. -/
theorem endWith_mem_handleEnded (s : ClientState) (r r' : EndReason)
    (h : Event.handleEnded r' ∈ (Client.endWith s r).2) :
    r' = r ∧ s.connection_state ≠ .NotConnected := by
  unfold Client.endWith at h
  dsimp only at h
  by_cases hjj : (match s.join_state with
      | JoinState.Joined _ => true
      | JoinState.Joining => true
      | JoinState.NotJoined _ => false) = true
  · rw [if_pos hjj] at h
    have hc := leave_inner_conn s
    cases hconn : (Client.leave_inner s).1.connection_state with
    | NotConnected =>
      rw [hconn] at h
      dsimp only at h
      exact absurd h (not_mem_of_countEnded_zero _ (leave_inner_countEnded s) r')
    | Connecting =>
      rw [hconn] at h
      dsimp only at h
      rw [List.mem_append, List.mem_append] at h
      rcases h with (h | h) | h
      · exact absurd h (not_mem_of_countEnded_zero _ (leave_inner_countEnded s) r')
      · simp [Client.set_connection_state_and_notify_observer] at h
      · simp at h
        exact ⟨h, by rw [← hc, hconn]; simp⟩
    | Connected =>
      rw [hconn] at h
      dsimp only at h
      rw [List.mem_append, List.mem_append] at h
      rcases h with (h | h) | h
      · exact absurd h (not_mem_of_countEnded_zero _ (leave_inner_countEnded s) r')
      · simp [Client.set_connection_state_and_notify_observer] at h
      · simp at h
        exact ⟨h, by rw [← hc, hconn]; simp⟩
    | Reconnecting =>
      rw [hconn] at h
      dsimp only at h
      rw [List.mem_append, List.mem_append] at h
      rcases h with (h | h) | h
      · exact absurd h (not_mem_of_countEnded_zero _ (leave_inner_countEnded s) r')
      · simp [Client.set_connection_state_and_notify_observer] at h
      · simp at h
        exact ⟨h, by rw [← hc, hconn]; simp⟩
  · rw [if_neg hjj] at h
    cases hconn : s.connection_state with
    | NotConnected =>
      rw [hconn] at h
      simp at h
    | Connecting =>
      rw [hconn] at h
      dsimp only at h
      rw [List.mem_append, List.mem_append] at h
      rcases h with (h | h) | h
      · simp at h
      · simp [Client.set_connection_state_and_notify_observer] at h
      · simp at h
        exact ⟨h, by simp⟩
    | Connected =>
      rw [hconn] at h
      dsimp only at h
      rw [List.mem_append, List.mem_append] at h
      rcases h with (h | h) | h
      · simp at h
      · simp [Client.set_connection_state_and_notify_observer] at h
      · simp at h
        exact ⟨h, by simp⟩
    | Reconnecting =>
      rw [hconn] at h
      dsimp only at h
      rw [List.mem_append, List.mem_append] at h
      rcases h with (h | h) | h
      · simp at h
      · simp [Client.set_connection_state_and_notify_observer] at h
      · simp at h
        exact ⟨h, by simp⟩

theorem join_conn (s : ClientState) :
    (Client.join s).1.connection_state = s.connection_state ∨
    (Client.join s).1.connection_state = .NotConnected := by
  unfold Client.join Client.join_proceed Client.take_busy
  dsimp only
  repeat' split
  all_goals
    first
    | exact Or.inr (endWith_conn _ _)
    | (left
       simp [Client.set_join_state_and_notify_observer])

theorem join_count (s : ClientState) :
    countEnded (Client.join s).2 ≤ 1 ∧
    ((Client.join s).1.stopped = false → countEnded (Client.join s).2 = 0) := by
  unfold Client.join Client.join_proceed Client.take_busy
  dsimp only
  repeat' split
  all_goals
    first
    | exact endWith_count _ _
    | exact ⟨by simp [countEnded, countEnded_append,
          Client.set_join_state_and_notify_observer],
        fun _ => by simp [countEnded, countEnded_append,
          Client.set_join_state_and_notify_observer]⟩

theorem join_ended_reasons (s : ClientState) (r' : EndReason)
    (h : Event.handleEnded r' ∈ (Client.join s).2) :
    r' = .HasMaxDevices ∨ r' = .CallManagerIsBusy := by
  unfold Client.join Client.join_proceed Client.take_busy at h
  dsimp only at h
  repeat' split at h
  all_goals
    first
    | exact Or.inl (endWith_mem_handleEnded _ _ _ h).1
    | exact Or.inr (endWith_mem_handleEnded _ _ _ h).1
    | simp [Client.set_join_state_and_notify_observer] at h

theorem set_peek_conn (s : ClientState) (result : Option PeekInfo)
    (pc_update_ok : Bool) (now : Nat) :
    (Client.set_peek_result_inner s result pc_update_ok now).1.connection_state =
      s.connection_state ∨
    (Client.set_peek_result_inner s result pc_update_ok now).1.connection_state =
      .NotConnected := by
  unfold Client.set_peek_result_inner
  dsimp only
  repeat' split
  all_goals
    first
    | exact Or.inr (endWith_conn _ _)
    | exact Or.inl rfl
    | exact Or.inl (set_peek_result_tail_conn _ _ _ _ _ _ _)

theorem countEnded_nil_eq : countEnded ([] : List Event) = 0 := rfl

theorem countEnded_singleton_peekChanged (u : Finset UserId) :
    countEnded [Event.handlePeekChanged u] = 0 := rfl

theorem countEnded_singleton_rdc (reason : RemoteDevicesChangedReason) :
    countEnded [Event.remoteDevicesChanged reason] = 0 := rfl

theorem countEnded_peekChanged_if (c : Prop) [Decidable c] (u : Finset UserId) :
    countEnded (if c then [Event.handlePeekChanged u] else []) = 0 := by
  split <;> rfl

theorem countEnded_rdc_if (c : Prop) [Decidable c]
    (reason : RemoteDevicesChangedReason) :
    countEnded (if c then [Event.remoteDevicesChanged reason] else []) = 0 := by
  split <;> rfl

theorem set_peek_count (s : ClientState) (result : Option PeekInfo)
    (pc_update_ok : Bool) (now : Nat) :
    countEnded (Client.set_peek_result_inner s result pc_update_ok now).2 ≤ 1 ∧
    ((Client.set_peek_result_inner s result pc_update_ok now).1.stopped = false →
      countEnded (Client.set_peek_result_inner s result pc_update_ok now).2 = 0) := by
  unfold Client.set_peek_result_inner
  dsimp only
  repeat' split
  all_goals constructor
  all_goals
    first
    | (simp [countEnded]; done)
    | exact (endWith_count _ _).1
    | (rw [countEnded_append]
       simp only [countEnded_peekChanged_if, countEnded_singleton_peekChanged,
         countEnded_nil_eq, Nat.zero_add]
       exact (endWith_count _ _).1)
    | (rw [set_peek_result_tail_countEnded]
       simp [countEnded, countEnded_append, countEnded_peekChanged_if,
         countEnded_rdc_if]
       done)
    | (intro hs
       first
       | (simp [countEnded]; done)
       | exact (endWith_count _ _).2 hs
       | (rw [countEnded_append]
          simp only [countEnded_peekChanged_if, countEnded_singleton_peekChanged,
            countEnded_nil_eq, Nat.zero_add]
          exact (endWith_count _ _).2 hs)
       | (rw [set_peek_result_tail_countEnded]
          simp [countEnded, countEnded_append, countEnded_peekChanged_if,
            countEnded_rdc_if]
          done))

theorem set_peek_ended_reasons (s : ClientState) (result : Option PeekInfo)
    (pc_update_ok : Bool) (now : Nat) (r' : EndReason)
    (h : Event.handleEnded r' ∈
      (Client.set_peek_result_inner s result pc_update_ok now).2) :
    r' = .FailedToUpdatePeerConnection := by
  unfold Client.set_peek_result_inner at h
  dsimp only at h
  repeat' split at h
  all_goals
    first
    | (simp at h; done)
    | (rw [List.mem_append] at h
       rcases h with h | h
       · (try split at h) <;> simp at h
       · exact (endWith_mem_handleEnded _ _ _ h).1)
    | exact absurd h (not_mem_of_countEnded_zero _
        (by rw [set_peek_result_tail_countEnded]
            simp [countEnded, countEnded_append, countEnded_peekChanged_if,
              countEnded_rdc_if])
        r')

/-! ### Per-job bounds on `handle_ended` (claims C7 and C9) -/

theorem count_pair_of_zero {p : ClientState × List Event}
    (h : countEnded p.2 = 0) :
    countEnded p.2 ≤ 1 ∧ (p.1.stopped = false → countEnded p.2 = 0) :=
  ⟨by omega, fun _ => h⟩

theorem ice_count (s : ClientState) (ice : IceConnectionState) :
    countEnded (Client.handle_ice_connection_state_changed s ice).2 ≤ 1 ∧
    ((Client.handle_ice_connection_state_changed s ice).1.stopped = false →
      countEnded (Client.handle_ice_connection_state_changed s ice).2 = 0) := by
  unfold Client.handle_ice_connection_state_changed
  repeat' split
  all_goals
    first
    | exact endWith_count _ _
    | exact count_pair_of_zero (by
        simp [countEnded, Client.set_connection_state_and_notify_observer])

theorem removed_count (s : ClientState) :
    countEnded (Client.handle_removed_received s).2 ≤ 1 ∧
    ((Client.handle_removed_received s).1.stopped = false →
      countEnded (Client.handle_removed_received s).2 = 0) := by
  unfold Client.handle_removed_received
  split
  all_goals exact endWith_count _ _

/-- Every single job emits at most one `handle_ended`, and none at all
unless it also stops the actor. -/
theorem step_ended_count (s : ClientState) (op : Op) :
    countEnded (Client.step s op).2 ≤ 1 ∧
    ((Client.step s op).1.stopped = false →
      countEnded (Client.step s op).2 = 0) := by
  cases op with
  | connect => exact count_pair_of_zero (connect_countEnded s)
  | join => exact join_count s
  | leave => exact count_pair_of_zero (leave_inner_countEnded s)
  | disconnect => exact endWith_count s _
  | ring recipient => exact count_pair_of_zero (ring_inner_countEnded s recipient)
  | setPeekResult result pc_update_ok now =>
    exact set_peek_count s result pc_update_ok now
  | iceStateChanged ice => exact ice_count s ice
  | speakerReceived t d n => exact count_pair_of_zero (speaker_countEnded s t d n)
  | removedReceived => exact removed_count s
  | internalEnd reason => exact endWith_count s reason

theorem run_ended_le_one (ops : List Op) : ∀ s : ClientState,
    countEnded (Client.run s ops).2 ≤ 1 := by
  induction ops with
  | nil => intro s; simp [Client.run, countEnded]
  | cons op rest ih =>
    intro s
    unfold Client.run
    by_cases hs : s.stopped = true
    · rw [if_pos hs]
      exact ih s
    · rw [if_neg hs]
      dsimp only
      rw [countEnded_append]
      by_cases hstop : (Client.step s op).1.stopped = true
      · rw [run_stopped _ rest hstop]
        dsimp only
        have h1 := (step_ended_count s op).1
        have h2 : countEnded ([] : List Event) = 0 := rfl
        omega
      · simp only [Bool.not_eq_true] at hstop
        have h0 := (step_ended_count s op).2 hstop
        rw [h0]
        have h3 := ih (Client.step s op).1
        omega

/-! ### `handle_ended(IceFailedAfterConnected)` only after `Connected`
(claim C7) -/

theorem ice_bad_conn (s : ClientState) (ice : IceConnectionState)
    (h : iceFailedEvent ∈ (Client.handle_ice_connection_state_changed s ice).2) :
    s.connection_state = .Connected ∨ s.connection_state = .Reconnecting := by
  unfold Client.handle_ice_connection_state_changed at h
  cases hc : s.connection_state <;> rw [hc] at h <;> cases ice <;> dsimp only at h
  all_goals
    first
    | (simp [iceFailedEvent, Client.set_connection_state_and_notify_observer] at h
       done)
    | exact Or.inl rfl
    | exact Or.inr rfl
    | exact absurd hc (endWith_mem_handleEnded s _ _ h).2
    | exact absurd (endWith_mem_handleEnded s _ _ h).1 (by simp)

/-- If a job emits `handle_ended(IceFailedAfterConnected)` — under the
source-faithful use of `internalEnd` — the connection state at the start
of the job was `Connected` or `Reconnecting`. -/
theorem step_bad (s : ClientState) (op : Op) (hok : opOk op = true)
    (h : iceFailedEvent ∈ (Client.step s op).2) :
    s.connection_state = .Connected ∨ s.connection_state = .Reconnecting := by
  cases op with
  | connect =>
    exact absurd h (not_mem_of_countEnded_zero _ (connect_countEnded s) _)
  | join =>
    have h1 := join_ended_reasons s .IceFailedAfterConnected h
    simp at h1
  | leave =>
    exact absurd h (not_mem_of_countEnded_zero _ (leave_inner_countEnded s) _)
  | disconnect =>
    have h1 := (endWith_mem_handleEnded s _ _ h).1
    simp at h1
  | ring recipient =>
    exact absurd h
      (not_mem_of_countEnded_zero _ (ring_inner_countEnded s recipient) _)
  | setPeekResult result pc_update_ok now =>
    have h1 := set_peek_ended_reasons s result pc_update_ok now
      .IceFailedAfterConnected h
    simp at h1
  | iceStateChanged ice => exact ice_bad_conn s ice h
  | speakerReceived t d n =>
    exact absurd h
      (not_mem_of_countEnded_zero _ (speaker_countEnded s t d n) _)
  | removedReceived =>
    simp only [Client.step] at h
    unfold Client.handle_removed_received at h
    split at h
    all_goals
      first
      | (have h1 := (endWith_mem_handleEnded s _ _ h).1
         simp at h1)
  | internalEnd reason =>
    have h1 := (endWith_mem_handleEnded s reason _ h).1
    rw [← h1] at hok
    simp [opOk] at hok

/-- A job can move the connection state into `Connected`/`Reconnecting`
only by emitting `handle_connection_state_changed(Connected)`, unless it
already was there. -/
theorem step_connected_marker (s : ClientState) (op : Op)
    (h : (Client.step s op).1.connection_state = .Connected ∨
      (Client.step s op).1.connection_state = .Reconnecting) :
    connectedEvent ∈ (Client.step s op).2 ∨
      s.connection_state = .Connected ∨ s.connection_state = .Reconnecting := by
  cases op with
  | connect =>
    simp only [Client.step] at h
    unfold Client.connect at h
    cases hc : s.connection_state <;> rw [hc] at h <;> dsimp only at h
    all_goals
      first
      | (simp [Client.set_connection_state_and_notify_observer] at h; done)
      | exact Or.inr (Or.inl rfl)
      | exact Or.inr (Or.inr rfl)
      | (rw [hc] at h; simp at h; done)
  | join =>
    simp only [Client.step] at h
    rcases join_conn s with hj | hj
    · rw [hj] at h
      exact Or.inr h
    · rw [hj] at h
      simp at h
  | leave =>
    simp only [Client.step] at h
    rw [leave_inner_conn] at h
    exact Or.inr h
  | disconnect =>
    simp only [Client.step] at h
    rw [endWith_conn] at h
    simp at h
  | ring recipient =>
    simp only [Client.step] at h
    rw [ring_inner_conn] at h
    exact Or.inr h
  | setPeekResult result pc_update_ok now =>
    simp only [Client.step] at h
    rcases set_peek_conn s result pc_update_ok now with hj | hj
    · rw [hj] at h
      exact Or.inr h
    · rw [hj] at h
      simp at h
  | iceStateChanged ice =>
    simp only [Client.step] at h ⊢
    unfold Client.handle_ice_connection_state_changed at h ⊢
    cases hc : s.connection_state <;> rw [hc] at h <;> cases ice <;>
      dsimp only at h ⊢
    all_goals
      first
      | (rw [endWith_conn] at h; simp at h; done)
      | (left
         simp [Client.set_connection_state_and_notify_observer, connectedEvent]
         done)
      | exact Or.inr (Or.inl rfl)
      | exact Or.inr (Or.inr rfl)
      | (rw [hc] at h; simp at h; done)
  | speakerReceived t d n =>
    simp only [Client.step] at h
    rw [speaker_conn] at h
    exact Or.inr h
  | removedReceived =>
    simp only [Client.step] at h
    unfold Client.handle_removed_received at h
    split at h
    all_goals rw [endWith_conn] at h
    all_goals simp at h
  | internalEnd reason =>
    simp only [Client.step] at h
    rw [endWith_conn] at h
    simp at h

theorem connectedPrecedes_append_of_not_bad (a b : List Event)
    (ha : iceFailedEvent ∉ a) (hb : connectedPrecedes b = true) :
    connectedPrecedes (a ++ b) = true := by
  induction a with
  | nil => simpa using hb
  | cons e rest ih =>
    rw [List.cons_append]
    by_cases h1 : e = connectedEvent
    · simp [connectedPrecedes, h1]
    · have h2 : e ≠ iceFailedEvent := fun hh => ha (hh ▸ List.mem_cons_self _ _)
      simp only [connectedPrecedes, if_neg h1, if_neg h2]
      exact ih (fun hm => ha (List.mem_cons_of_mem _ hm))

theorem connectedPrecedes_append_of_marker (a b : List Event)
    (ha : iceFailedEvent ∉ a) (hm : connectedEvent ∈ a) :
    connectedPrecedes (a ++ b) = true := by
  induction a with
  | nil => simp at hm
  | cons e rest ih =>
    rw [List.cons_append]
    by_cases h1 : e = connectedEvent
    · simp [connectedPrecedes, h1]
    · have h2 : e ≠ iceFailedEvent := fun hh => ha (hh ▸ List.mem_cons_self _ _)
      simp only [connectedPrecedes, if_neg h1, if_neg h2]
      apply ih (fun hmm => ha (List.mem_cons_of_mem _ hmm))
      rcases List.mem_cons.mp hm with hq | hq
      · exact absurd hq.symm h1
      · exact hq

/-- In any run from a state not yet `Connected`/`Reconnecting` whose ops
respect the source call sites of `Client::end`, no
`handle_ended(IceFailedAfterConnected)` precedes the first
`handle_connection_state_changed(Connected)`. -/
theorem run_connectedPrecedes (ops : List Op) : ∀ s : ClientState,
    (∀ op ∈ ops, opOk op = true) →
    s.connection_state ≠ .Connected → s.connection_state ≠ .Reconnecting →
    connectedPrecedes (Client.run s ops).2 = true := by
  induction ops with
  | nil => intro s _ _ _; rfl
  | cons op rest ih =>
    intro s hok h1 h2
    unfold Client.run
    by_cases hs : s.stopped = true
    · rw [if_pos hs]
      exact ih s (fun o ho => hok o (List.mem_cons_of_mem _ ho)) h1 h2
    · rw [if_neg hs]
      dsimp only
      have hbad : iceFailedEvent ∉ (Client.step s op).2 := fun hmem =>
        (step_bad s op (hok op (List.mem_cons_self _ _)) hmem).elim h1 h2
      by_cases hcr : (Client.step s op).1.connection_state = .Connected ∨
          (Client.step s op).1.connection_state = .Reconnecting
      · rcases step_connected_marker s op hcr with hm | hm
        · exact connectedPrecedes_append_of_marker _ _ hbad hm
        · exact hm.elim (fun a => absurd a h1) (fun a => absurd a h2)
      · push_neg at hcr
        exact connectedPrecedes_append_of_not_bad _ _ hbad
          (ih _ (fun o ho => hok o (List.mem_cons_of_mem _ ho)) hcr.1 hcr.2)

/-- Claim C9: for every sequence of operations on one `Client` — in fact
from any starting state — the observer callback `handle_ended` is invoked
at most once: `Client::end` emits it only when the connection state is
not `NotConnected`, sets the state to `NotConnected` and stops the actor,
so no later operation (a second `end()` or `disconnect()` included) can
emit another. -/
theorem C9_handle_ended_at_most_once (s : ClientState) (ops : List Op) :
    countEnded (Client.run s ops).2 ≤ 1 :=
  run_ended_le_one ops s

/-- Claim C7: ICE state changes drive the connection state machine per
the table — `(Connecting, Connected|Completed) → Connected`;
`(Connecting, Disconnected|Closed|Failed) → end(IceFailedWhileConnecting)`;
`(Connected, Checking|Disconnected) → Reconnecting`;
`(Reconnecting, Connected|Completed) → Connected` — and in every run
(with `internalEnd` restricted to the reasons the non-ICE call sites of
`Client::end` actually pass) an `IceFailedAfterConnected` ending is
preceded by a `Connected` connection-state notification. -/
theorem C7_ice_transitions :
    (∀ (s : ClientState) (ice : IceConnectionState),
      s.connection_state = .Connecting →
      ice = .Connected ∨ ice = .Completed →
      Client.handle_ice_connection_state_changed s ice =
        ({ s with connection_state := .Connected },
         [.connectionStateChanged .Connected])) ∧
    (∀ (s : ClientState) (ice : IceConnectionState),
      s.connection_state = .Connecting →
      ice = .Disconnected ∨ ice = .Closed ∨ ice = .Failed →
      Client.handle_ice_connection_state_changed s ice =
        Client.endWith s .IceFailedWhileConnecting) ∧
    (∀ (s : ClientState) (ice : IceConnectionState),
      s.connection_state = .Connected →
      ice = .Checking ∨ ice = .Disconnected →
      Client.handle_ice_connection_state_changed s ice =
        ({ s with connection_state := .Reconnecting },
         [.connectionStateChanged .Reconnecting])) ∧
    (∀ (s : ClientState) (ice : IceConnectionState),
      s.connection_state = .Reconnecting →
      ice = .Connected ∨ ice = .Completed →
      Client.handle_ice_connection_state_changed s ice =
        ({ s with connection_state := .Connected },
         [.connectionStateChanged .Connected])) ∧
    (∀ (kind : GroupCallKind) (rid : Option Int) (ops : List Op),
      (∀ op ∈ ops, opOk op = true) →
      connectedPrecedes (Client.run (initialState kind rid) ops).2 = true) := by
  refine ⟨?_, ?_, ?_, ?_, ?_⟩
  · intro s ice hc hice
    rcases hice with h | h <;> subst h <;>
      simp [Client.handle_ice_connection_state_changed, hc,
        Client.set_connection_state_and_notify_observer]
  · intro s ice hc hice
    rcases hice with h | h | h <;> subst h <;>
      simp [Client.handle_ice_connection_state_changed, hc]
  · intro s ice hc hice
    rcases hice with h | h <;> subst h <;>
      simp [Client.handle_ice_connection_state_changed, hc,
        Client.set_connection_state_and_notify_observer]
  · intro s ice hc hice
    rcases hice with h | h <;> subst h <;>
      simp [Client.handle_ice_connection_state_changed, hc,
        Client.set_connection_state_and_notify_observer]
  · intro kind rid ops hok
    exact run_connectedPrecedes ops _ hok (by simp [initialState])
      (by simp [initialState])

theorem C7_ice_transitions_witness :
    Client.handle_ice_connection_state_changed
        { initialState .CallLink none with connection_state := .Connecting }
        .Connected =
      ({ initialState .CallLink none with connection_state := .Connected },
       [.connectionStateChanged .Connected]) ∧
    Client.handle_ice_connection_state_changed
        { initialState .CallLink none with connection_state := .Connecting }
        .Failed =
      Client.endWith
        { initialState .CallLink none with connection_state := .Connecting }
        .IceFailedWhileConnecting ∧
    Client.handle_ice_connection_state_changed
        { initialState .CallLink none with connection_state := .Connected }
        .Checking =
      ({ initialState .CallLink none with connection_state := .Reconnecting },
       [.connectionStateChanged .Reconnecting]) ∧
    Client.handle_ice_connection_state_changed
        { initialState .CallLink none with connection_state := .Reconnecting }
        .Completed =
      ({ initialState .CallLink none with connection_state := .Connected },
       [.connectionStateChanged .Connected]) ∧
    connectedPrecedes (Client.run (initialState .CallLink none)
      [.connect, .iceStateChanged .Connected, .iceStateChanged .Failed]).2 =
      true :=
  ⟨C7_ice_transitions.1 _ _ rfl (Or.inl rfl),
   C7_ice_transitions.2.1 _ _ rfl (Or.inr (Or.inr rfl)),
   C7_ice_transitions.2.2.1 _ _ rfl (Or.inl rfl),
   C7_ice_transitions.2.2.2.1 _ _ rfl (Or.inr rfl),
   C7_ice_transitions.2.2.2.2 .CallLink none _ (by decide)⟩

/-! ### The polling scheduler (claim C6) -/

/-- Claim C6: `maybe_request_remote_devices` issues a new SFU peek if and
only if the request state is `NeverRequested`, or `Updated(at)` with
`now ≥ at + maxAge`, or `Requested(at)` with `now > at + 5 s`, or
`Failed(at)` with `now > at + 5 s`; in `WaitingForMembershipProof` no
peek is ever issued. -/
theorem C6_peek_request_iff (s : ClientState) (now max_age : Nat)
    (rerequest_if_pending : Bool) :
    Event.sfuPeekRequested ∈
        (Client.maybe_request_remote_devices s now max_age rerequest_if_pending).2 ↔
      (s.remote_devices_request_state = .NeverRequested ∨
       (∃ t, s.remote_devices_request_state = .Updated t ∧ now ≥ t + max_age) ∨
       (∃ b t, s.remote_devices_request_state = .Requested b t ∧ now > t + 5) ∨
       (∃ t, s.remote_devices_request_state = .Failed t ∧ now > t + 5)) := by
  unfold Client.maybe_request_remote_devices
  cases h : s.remote_devices_request_state with
  | WaitingForMembershipProof =>
    simp only [h]
    by_cases hr : rerequest_if_pending <;> simp [hr]
  | NeverRequested => simp [h]
  | Requested b t =>
    by_cases ht : now > t + 5
    · simp [h, ht]
      cases b
      · exact Or.inl ⟨t, ⟨rfl, rfl⟩, by omega⟩
      · exact Or.inr ⟨t, ⟨rfl, rfl⟩, by omega⟩
    · by_cases hr : rerequest_if_pending
      · simp [h, ht, hr]
        exact ⟨fun _ => by omega, fun _ => by omega⟩
      · simp [h, ht, hr]
        exact ⟨fun _ => by omega, fun _ => by omega⟩
  | Updated t =>
    by_cases ht : now ≥ t + max_age
    · simp [h, ht]
    · simp only [h, ht, if_false, if_neg ht]
      by_cases hr : rerequest_if_pending <;> simp [hr, ht]
  | Failed t =>
    by_cases ht : now > t + 5
    · simp [h, ht]
    · simp only [h, ht, if_false, if_neg ht]
      by_cases hr : rerequest_if_pending <;> simp [hr, ht]

/-! ### The speaker watermark (claim C10) -/

/-- Claim C10: the speaker RTP-timestamp watermark advances on every
in-order `Speaker` message, including one naming an unknown demux id:
after `Speaker{demuxId = D1, timestamp = T}` with `D1` unknown, a later
`Speaker{demuxId = D2, timestamp = T'}` with `T' ≤ T` is dropped — no
state change and no callback — even when `D2` is known. -/
theorem C10_speaker_watermark (s : ClientState) (T D1 T' D2 now1 now2 : Nat)
    (hunknown : findByDemuxId s.remote_devices D1 = none)
    (hle : T' ≤ T) :
    Client.handle_speaker_received
        (Client.handle_speaker_received s T D1 now1).1 T' D2 now2 =
      ((Client.handle_speaker_received s T D1 now1).1, []) := by
  cases hw : s.speaker_rtp_timestamp with
  | none =>
    simp [Client.handle_speaker_received, hw, hunknown, hle]
  | some w =>
    by_cases hT : T ≤ w
    · have h1 : T' ≤ w := le_trans hle hT
      simp [Client.handle_speaker_received, hw, hT, h1]
    · simp [Client.handle_speaker_received, hw, hT, hunknown, hle]

/-- Witness for claim C10: demux id 99 is unknown, demux id 2 is a known
remote device; `Speaker{99, T = 10}` then `Speaker{2, T' = 5}` leaves the
state unchanged and fires nothing. -/
theorem C10_speaker_watermark_witness :
    Client.handle_speaker_received
        (Client.handle_speaker_received
          { initialState .CallLink none with
            remote_devices := [⟨2, [2], 0, none⟩] } 10 99 100).1 5 2 101 =
      ((Client.handle_speaker_received
          { initialState .CallLink none with
            remote_devices := [⟨2, [2], 0, none⟩] } 10 99 100).1, []) :=
  C10_speaker_watermark _ 10 99 5 2 100 101 (by decide) (by decide)

/-! ### Full-call rejection on join (claim C5) -/

/-- Claim C5: `join()` in `NotJoined`, when the last peek info shows
`deviceCount ≥ maxDevices`, ends the call with `HasMaxDevices` (the
`handle_ended` callback fires, since the client is connected) and the
process-wide busy flag is left untouched — it is acquired only after this
check passes. -/
theorem C5_join_max_devices (s : ClientState) (r : Option Int) (pi : PeekInfo)
    (m : Nat)
    (hjs : s.join_state = .NotJoined r)
    (hpi : s.last_peek_info = some pi)
    (hm : pi.max_devices = some m)
    (hcount : pi.device_count ≥ m)
    (hconn : s.connection_state ≠ .NotConnected) :
    (Client.join s).2 = [.connectionStateChanged .NotConnected,
      .handleEnded .HasMaxDevices] ∧
    (Client.join s).1.busy = s.busy ∧
    (Client.join s).1.connection_state = .NotConnected := by
  have hcond : pi.device_count ≥ pi.max_devices.getD 4294967295 := by
    rw [hm]
    exact hcount
  have hjoin : Client.join s = Client.endWith s .HasMaxDevices := by
    unfold Client.join
    rw [hjs, hpi]
    simp [hcond]
  rw [hjoin]
  cases hc : s.connection_state with
  | NotConnected => exact absurd hc hconn
  | Connecting =>
    simp [Client.endWith, hjs, hc, Client.set_connection_state_and_notify_observer]
  | Connected =>
    simp [Client.endWith, hjs, hc, Client.set_connection_state_and_notify_observer]
  | Reconnecting =>
    simp [Client.endWith, hjs, hc, Client.set_connection_state_and_notify_observer]

/-- Witness for claim C5: one reported device, `maxDevices = 1`, a
connecting, not-joined client. -/
theorem C5_join_max_devices_witness :
    (Client.join { initialState .CallLink none with
        connection_state := .Connecting,
        last_peek_info := some ⟨[⟨1, some [1]⟩], [], none, none, some 1⟩ }).2 =
      [.connectionStateChanged .NotConnected, .handleEnded .HasMaxDevices] ∧
    (Client.join { initialState .CallLink none with
        connection_state := .Connecting,
        last_peek_info := some ⟨[⟨1, some [1]⟩], [], none, none, some 1⟩ }).1.busy =
      ({ initialState .CallLink none with
        connection_state := .Connecting,
        last_peek_info := some ⟨[⟨1, some [1]⟩], [], none, none, some 1⟩ } : ClientState).busy ∧
    (Client.join { initialState .CallLink none with
        connection_state := .Connecting,
        last_peek_info := some ⟨[⟨1, some [1]⟩], [], none, none, some 1⟩ }).1.connection_state =
      .NotConnected :=
  C5_join_max_devices _ none ⟨[⟨1, some [1]⟩], [], none, none, some 1⟩ 1
    (by decide) (by decide) (by decide) (by decide) (by decide)

set_option maxRecDepth 1000000 in
/-- Claim C4, counterexample: the claim as stated is false. The string
`"+000000000000000"` is 16 bytes but **not** 16 hex digits, so the claim
puts it on the SHA-256 path; the code parses it with
`u64::from_str_radix` (which accepts a leading `'+'`), obtains 0, and
returns -1, while the first 8 bytes of its SHA-256, read little-endian,
are 4976600527717318839. -/
theorem C4_counterexample :
    RingId.from_era_id "+000000000000000" ≠ ringIdFromEraClaim "+000000000000000" ∧
    RingId.from_era_id "+000000000000000" = -1 ∧
    ringIdFromEraClaim "+000000000000000" = 4976600527717318839 := by
  refine ⟨by decide, by decide, by decide⟩

end GroupCall
